import Mathlib

/-!
Verification development for the Intersophia FAQ widget.

The repository ships three variants of the same vanilla-JS FAQ script:
* the first IIFE in `src/unnamed/part_000` (header `@version 2.0`) — the most
  recent variant, with the question index (`state.questions`), cached
  per-section valid items, `formatBulletPoints`, keyboard navigation and the
  social-glow mapping; this is the primary program embedded below under the
  `Intersophia` namespace;
* the second IIFE in `src/unnamed/part_000` — an intermediate variant whose
  index builder, hash handling and coordinator guards agree with the first;
* `src/assets/js/main.js` — an older variant without a question index
  (a `flatQuestions` array built during rendering, no duplicate-id dropping,
  and an `applyActiveQuestion` without the index-membership guard); it is
  embedded under `Intersophia.MainJs` where a claim needs it.

DOM state is embedded as explicit data: the set of rendered sidebar/accordion
entries, the ids currently carrying the `active` class, the ids whose panel
carries the `open` class, the viewer content and the URL hash.  Scroll
positions, animation classes and timers are outside the modelled state.

JS string builtins used by the code (`split('\n')`, `trim`, `startsWith`,
`slice`, `encodeURIComponent`, `decodeURIComponent`) are modelled on the
character list underlying `String`; percent-encoding works on UTF-8 bytes as
the real builtins do.
-/

namespace Intersophia

/-! ### Models of the JS string builtins -/

/-- JS `String.prototype.trim` (ASCII whitespace model). -/
def jsTrim (s : String) : String :=
  String.mk (((s.data.dropWhile Char.isWhitespace).reverse.dropWhile Char.isWhitespace).reverse)

/-- JS `str.split(sep)` for a one-character separator, on character lists. -/
def splitChars (sep : Char) : List Char → List (List Char)
  | [] => [[]]
  | c :: rest =>
    let r := splitChars sep rest
    if c = sep then [] :: r
    else
      match r with
      | [] => [[c]]
      | x :: xs => (c :: x) :: xs

/-- JS `text.split('\n')`. -/
def splitLines (s : String) : List String :=
  (splitChars (Char.ofNat 10) s.data).map String.mk

/-- JS `s.startsWith(pre)`. -/
def strStartsWith (s pre : String) : Bool :=
  pre.data.isPrefixOf s.data

/-- JS `s.slice(n)` / `s.substring(n)` for a nonnegative index. -/
def strDrop (s : String) (n : Nat) : String :=
  String.mk (s.data.drop n)

/-- JS `arr.join(sep)`. -/
def joinSep (sep : String) : List String → String
  | [] => ""
  | [x] => x
  | x :: y :: xs => x ++ sep ++ joinSep sep (y :: xs)

/-- Characters that `encodeURIComponent` leaves unescaped:
`A–Z a–z 0–9 - _ . ! ~ * ' ( )`. -/
def isUnreserved (c : Char) : Bool :=
  ((Char.ofNat 65) ≤ c && c ≤ (Char.ofNat 90)) ||
  ((Char.ofNat 97) ≤ c && c ≤ (Char.ofNat 122)) ||
  ((Char.ofNat 48) ≤ c && c ≤ (Char.ofNat 57)) ||
  c == (Char.ofNat 45) || c == (Char.ofNat 95) || c == (Char.ofNat 46) ||
  c == (Char.ofNat 33) || c == (Char.ofNat 126) || c == (Char.ofNat 42) ||
  c == (Char.ofNat 39) || c == (Char.ofNat 40) || c == (Char.ofNat 41)

/-- The UTF-8 bytes of a character, as `encodeURIComponent` escapes them. -/
def utf8Bytes (c : Char) : List Nat :=
  if c.toNat < 128 then [c.toNat]
  else if c.toNat < 2048 then [192 + c.toNat / 64, 128 + c.toNat % 64]
  else if c.toNat < 65536 then
    [224 + c.toNat / 4096, 128 + c.toNat / 64 % 64, 128 + c.toNat % 64]
  else
    [240 + c.toNat / 262144, 128 + c.toNat / 4096 % 64, 128 + c.toNat / 64 % 64,
      128 + c.toNat % 64]

/-- Upper-case hex digit for a value `0–15`. -/
def hexDigit (n : Nat) : Char :=
  if n < 10 then Char.ofNat (48 + n) else Char.ofNat (55 + n)

/-- The three characters `%HH` escaping one byte. -/
def percentByte (b : Nat) : List Char :=
  [Char.ofNat 37, hexDigit (b / 16), hexDigit (b % 16)]

/-- One character of `encodeURIComponent` output. -/
def encodeChar (c : Char) : List Char :=
  if isUnreserved c then [c] else (utf8Bytes c).flatMap percentByte

/-- JS `encodeURIComponent`. -/
def encodeURIComponent (s : String) : String :=
  String.mk (s.data.flatMap encodeChar)

/-- Value of a hex digit character, if any. -/
def hexVal? (c : Char) : Option Nat :=
  if (Char.ofNat 48) ≤ c && c ≤ (Char.ofNat 57) then some (c.toNat - 48)
  else if (Char.ofNat 65) ≤ c && c ≤ (Char.ofNat 70) then some (c.toNat - 55)
  else if (Char.ofNat 97) ≤ c && c ≤ (Char.ofNat 102) then some (c.toNat - 87)
  else none

/-- A token of a percent-encoded string: a byte from a `%HH` escape, or a
literal character.  `none` models the `URIError` on a malformed escape. -/
def tokenize : List Char → Option (List (Sum Nat Char))
  | [] => some []
  | c :: rest =>
    if c = Char.ofNat 37 then
      match rest with
      | h1 :: h2 :: rest2 =>
        match hexVal? h1, hexVal? h2 with
        | some a, some b => (tokenize rest2).map (fun ts => Sum.inl (16 * a + b) :: ts)
        | _, _ => none
      | _ => none
    else (tokenize rest).map (fun ts => Sum.inr c :: ts)

/-- Is `b` a UTF-8 continuation byte? -/
def isCont (b : Nat) : Bool := 128 ≤ b && b < 192

/-- Read `n` continuation bytes, folding their 6 payload bits onto `acc`;
returns the decoded code point and the remaining tokens. -/
def readCont : Nat → Nat → List (Sum Nat Char) → Option (Nat × List (Sum Nat Char))
  | acc, 0, ts => some (acc, ts)
  | acc, n + 1, Sum.inl b :: ts =>
    if isCont b then readCont (acc * 64 + (b - 128)) n ts else none
  | _, _ + 1, _ => none

lemma readCont_le : ∀ (n acc : Nat) (ts : List (Sum Nat Char)) (v : Nat)
    (ts2 : List (Sum Nat Char)), readCont acc n ts = some (v, ts2) →
    ts2.length ≤ ts.length := by
  intro n
  induction n with
  | zero =>
    intro acc ts v ts2 h
    simp only [readCont, Option.some_inj, Prod.mk.injEq] at h
    rw [← h.2]
  | succ n ih =>
    intro acc ts v ts2 h
    cases ts with
    | nil => simp [readCont] at h
    | cons t ts' =>
      cases t with
      | inr c => simp [readCont] at h
      | inl b =>
        simp only [readCont] at h
        by_cases hc : isCont b = true
        · rw [if_pos hc] at h
          exact le_trans (ih _ ts' v ts2 h) (by simp)
        · rw [if_neg hc] at h
          cases h

/-- UTF-8 decoding of the byte tokens, passing literal characters through;
`none` models the `URIError` on an invalid byte sequence. -/
def decodeTokens : List (Sum Nat Char) → Option (List Char)
  | [] => some []
  | Sum.inr c :: ts => (decodeTokens ts).map (fun cs => c :: cs)
  | Sum.inl b :: ts =>
    if b < 128 then (decodeTokens ts).map (fun cs => Char.ofNat b :: cs)
    else if 192 ≤ b && b < 224 then
      match hr : readCont (b - 192) 1 ts with
      | some p => (decodeTokens p.2).map (fun cs => Char.ofNat p.1 :: cs)
      | none => none
    else if 224 ≤ b && b < 240 then
      match hr : readCont (b - 224) 2 ts with
      | some p => (decodeTokens p.2).map (fun cs => Char.ofNat p.1 :: cs)
      | none => none
    else if 240 ≤ b && b < 248 then
      match hr : readCont (b - 240) 3 ts with
      | some p => (decodeTokens p.2).map (fun cs => Char.ofNat p.1 :: cs)
      | none => none
    else none
termination_by ts => ts.length
decreasing_by
  · simp only [List.length_cons]
    omega
  · simp only [List.length_cons]
    omega
  · have hle := readCont_le 1 (b - 192) ts p.1 p.2 (by rw [hr])
    simp only [List.length_cons]
    omega
  · have hle := readCont_le 2 (b - 224) ts p.1 p.2 (by rw [hr])
    simp only [List.length_cons]
    omega
  · have hle := readCont_le 3 (b - 240) ts p.1 p.2 (by rw [hr])
    simp only [List.length_cons]
    omega

/-- JS `decodeURIComponent`; `none` models a thrown `URIError`. -/
def decodeURIComponent (s : String) : Option String :=
  match tokenize s.data with
  | none => none
  | some ts =>
    match decodeTokens ts with
    | some cs => some (String.mk cs)
    | none => none

/-! ### Data model (part_000, first variant) -/

/-- A raw FAQ item `{ id, q, a }`; a missing/falsy `id` is modelled as `""`
and missing `q`/`a` as `""` (the code reads `item.q || ''`, `item.a || ''`). -/
structure Item where
  id : String
  q : String
  a : String
deriving Repr, DecidableEq

/-- A raw FAQ section `{ section, hideHeading, items }`. -/
structure Sec where
  sectionName : String
  hideHeading : Bool
  items : List Item
deriving Repr, DecidableEq

/-- A question record as built by `buildQuestionIndex`:
`{ id, section, question, answer, order }`. -/
structure Entry where
  id : String
  sectionName : String
  question : String
  answer : String
  order : Nat
deriving Repr, DecidableEq

/-- A processed section with its cached `validItems`. -/
structure PSec where
  sectionName : String
  hideHeading : Bool
  validItems : List Entry
deriving Repr, DecidableEq

/-- `state.questions.has(id)` over the insertion-ordered entry list that
models the JS `Map`. -/
def hasId (qs : List Entry) (id : String) : Bool :=
  qs.any (fun e => e.id == id)

/-- `state.questions.get(id)`. -/
def getQ (qs : List Entry) (id : String) : Option Entry :=
  qs.find? (fun e => e.id == id)

/-- One iteration of the `items.forEach` body of `buildQuestionIndex`
(part_000:251-266): skip a falsy id, skip an already-seen id, otherwise
append the record with `order = questions.size`. -/
def insertItem (sectionName : String) (qs : List Entry) (it : Item) :
    List Entry × Option Entry :=
  if it.id = "" then (qs, none)
  else if hasId qs it.id then (qs, none)
  else
    let entry : Entry :=
      { id := it.id, sectionName := sectionName, question := it.q, answer := it.a,
        order := qs.length }
    (qs ++ [entry], some entry)

/-- Processing of one section's items; returns the grown index and the
section's `validItems` in order. -/
def processItems (sectionName : String) (qs : List Entry) :
    List Item → List Entry × List Entry
  | [] => (qs, [])
  | it :: rest =>
    match insertItem sectionName qs it with
    | (qs2, some e) =>
      let r := processItems sectionName qs2 rest
      (r.1, e :: r.2)
    | (qs2, none) => processItems sectionName qs2 rest

/-- Processing of all sections (`sections.map` in `buildQuestionIndex`). -/
def processSections (qs : List Entry) : List Sec → List Entry × List PSec
  | [] => (qs, [])
  | s :: rest =>
    let r1 := processItems s.sectionName qs s.items
    let r2 := processSections r1.1 rest
    (r2.1,
      { sectionName := s.sectionName, hideHeading := s.hideHeading,
        validItems := r1.2 } :: r2.2)

/-- `buildQuestionIndex` (part_000:243-276): the question index and the
processed sections with cached valid items. -/
def buildQuestionIndex (sections : List Sec) : List Entry × List PSec :=
  processSections [] sections

/-! ### `formatBulletPoints` (part_000:154-197) -/

/-- Does the trimmed line start with the `* ` bullet marker? -/
def isBulletLine (line : String) : Bool :=
  strStartsWith (jsTrim line) "* "

/-- `trimmed.substring(2).trim()` — the bullet text after the marker. -/
def bulletContent (line : String) : String :=
  jsTrim (strDrop (jsTrim line) 2)

/-- `currentList.map(item => `<li>…</li>`).join('')`. -/
def mkListItems (items : List String) : String :=
  String.join (items.map (fun i => "<li>" ++ i ++ "</li>"))

/-- The `<ul>…</ul>` string pushed when a bullet run is closed. -/
def mkUl (items : List String) : String :=
  "<ul>" ++ mkListItems items ++ "</ul>"

/-- The line loop of `formatBulletPoints`, carrying `inList`/`currentList`. -/
def fbLoop : List String → Bool → List String → List String
  | [], inList, currentList =>
    if inList && decide (0 < currentList.length) then [mkUl currentList] else []
  | line :: rest, inList, currentList =>
    if isBulletLine line then
      fbLoop rest true
        (if inList then currentList ++ [bulletContent line] else [bulletContent line])
    else
      (if inList then [mkUl currentList] else []) ++
        (if jsTrim line = "" then [] else [line]) ++ fbLoop rest false []

/-- `formatBulletPoints` on a string argument. -/
def formatBulletPoints (text : String) : String :=
  if text = "" then text
  else joinSep "\n" (fbLoop (splitLines text) false [])

/-- A JS value, as far as the `typeof text !== 'string'` guard cares. -/
inductive JsVal where
  | str (s : String)
  | nonString (tag : String)
deriving Repr, DecidableEq

/-- `formatBulletPoints` including its non-string guard. -/
def formatBulletPointsVal : JsVal → JsVal
  | JsVal.str s => JsVal.str (formatBulletPoints s)
  | v => v

/-! ### Rendered node model (part_000, first variant) -/

/-- `CONFIG.STATIC_ACCORDION_IDS`. -/
def STATIC_ACCORDION_IDS : List String := ["kim-jestesmy"]

/-- One node appended to the sidebar by `renderDesktop` (part_000:283-330). -/
inductive SideNode where
  | heading (title : String)
  | link (id question : String)
deriving Repr, DecidableEq

/-- `renderDesktop`: per section, skip when `validItems` is empty, emit the
heading unless `hideHeading`, then one `.side-link` button per valid item. -/
def renderDesktopNodes (ps : List PSec) : List SideNode :=
  (ps.map (fun s =>
    if s.validItems.length == 0 then []
    else
      (if s.hideHeading then [] else [SideNode.heading s.sectionName]) ++
        s.validItems.map (fun e => SideNode.link e.id e.question))).flatten

/-- One node appended to the mobile accordion by `renderMobile`
(part_000:361-407). -/
inductive AccNode where
  | heading (title : String)
  | staticBlock (id body : String)
  | accItem (id question body : String)
deriving Repr, DecidableEq

/-- `createAccordionItem` (part_000:409-439); the panel body is
`formatBulletPoints(entry.answer)`. -/
def createAccordionItem (e : Entry) : AccNode :=
  AccNode.accItem e.id e.question (formatBulletPoints e.answer)

/-- `createStaticAccordionBlock` (part_000:441-449). -/
def createStaticAccordionBlock (e : Entry) : AccNode :=
  AccNode.staticBlock e.id (formatBulletPoints e.answer)

/-- `renderMobile`: per section, skip when `validItems` is empty, emit the
heading unless `hideHeading`, then a static block or an accordion item per
valid item. -/
def renderMobileNodes (ps : List PSec) : List AccNode :=
  (ps.map (fun s =>
    if s.validItems.length == 0 then []
    else
      (if s.hideHeading then [] else [AccNode.heading s.sectionName]) ++
        s.validItems.map (fun e =>
          if STATIC_ACCORDION_IDS.contains e.id then createStaticAccordionBlock e
          else createAccordionItem e))).flatten

def isSideLink : SideNode → Bool
  | SideNode.link _ _ => true
  | _ => false

def isAccEntry : AccNode → Bool
  | AccNode.heading _ => false
  | _ => true

/-- Number of `.side-link` buttons rendered in the sidebar. -/
def sidebarLinkCount (ps : List PSec) : Nat :=
  (renderDesktopNodes ps).countP isSideLink

/-- Number of question entries rendered in the mobile accordion (collapsible
accordion items plus always-expanded static blocks). -/
def accordionEntryCount (ps : List PSec) : Nat :=
  (renderMobileNodes ps).countP isAccEntry

/-! ### Coordinator state machine (part_000, first variant) -/

/-- Content of the desktop viewer `#contentInner`, as far as the claims
observe it. -/
inductive ViewerContent where
  | loading
  | question (id : String)
  | emptyMsg
deriving Repr, DecidableEq

/-- The coordinator's state: the index and processed sections, the ids of the
rendered sidebar buttons and (non-static) accordion items, `state.activeId`,
the ids currently carrying the sidebar `active` class, the ids whose panel
carries the `open` class, `window.location.hash` and the viewer content. -/
structure AppState where
  questions : List Entry
  sections : List PSec
  sidebarIds : List String
  accordionIds : List String
  activeId : Option String
  sidebarActive : List String
  openPanels : List String
  locationHash : String
  viewer : ViewerContent
deriving Repr, DecidableEq

/-- `extractHashId` (part_000:851-862): strip `#`, try to percent-decode
(falling back to the raw hash), trim, and return `null` for an empty result. -/
def extractHashId (locationHash : String) : Option String :=
  if locationHash = "" then none
  else
    let hash := strDrop locationHash 1
    if hash = "" then none
    else
      let decoded :=
        match decodeURIComponent hash with
        | some d => d
        | none => hash
      let t := jsTrim decoded
      if t = "" then none else some t

/-- `resolveQuestionId` (part_000:864-877). -/
def resolveQuestionId (qs : List Entry) (candidate : String) : Option String :=
  if candidate = "" || qs.length == 0 then none
  else if hasId qs candidate then some candidate
  else if strStartsWith candidate "q-" then
    let trimmed := strDrop candidate 2
    if hasId qs trimmed then some trimmed else none
  else
    let prefixed := "q-" ++ candidate
    if hasId qs prefixed then some prefixed else none

/-- `resolveQuestionId(extractHashId())` with JS `null` propagation. -/
def resolveQuestionId? (qs : List Entry) : Option String → Option String
  | none => none
  | some c => resolveQuestionId qs c

/-- `window.location.hash.replace(/^#/, '')`. -/
def stripHashMark (h : String) : String :=
  if strStartsWith h "#" then strDrop h 1 else h

/-- `setHashQuestionId` (part_000:838-849) as a function on the location
hash; both write paths leave the location hash at `#` + encoded id. -/
def setHashQuestionId (locationHash : String) (id : String) : String :=
  if id = "" then locationHash
  else
    let encoded := encodeURIComponent id
    let current := stripHashMark locationHash
    if current = encoded then locationHash
    else "#" ++ encoded

/-- `updateSidebarActive` (part_000:516-523): every sidebar button's
`active`/`is-active` classes and `aria-current` are set to
`questionId === id`. -/
def updateSidebarActive (st : AppState) (id? : Option String) : AppState :=
  { st with sidebarActive := st.sidebarIds.filter (fun q => some q == id?) }

/-- `renderDesktopQuestion` (part_000:461-479): a missing viewer or an
unknown id leaves the viewer untouched. -/
def renderDesktopQuestion (st : AppState) (id? : Option String) : AppState :=
  match id? with
  | none => st
  | some id =>
    match getQ st.questions id with
    | none => st
    | some _ => { st with viewer := ViewerContent.question id }

/-- `syncMobileAccordion` (part_000:548-573): collapse every open panel other
than the target, then expand the target if it is not already open. -/
def syncMobileAccordion (st : AppState) (id? : Option String) : AppState :=
  match id? with
  | none => st
  | some id =>
    if id = "" || st.accordionIds.length == 0 then st
    else if !(st.accordionIds.contains id) then st
    else
      let collapsed := st.openPanels.filter (fun q => q == id)
      let opened := if collapsed.contains id then collapsed else collapsed ++ [id]
      { st with openPanels := opened }

/-- `applyActiveQuestion` (part_000:533-546).  The social-glow side effect
(part_000:542-545) touches only animation classes and is outside the modelled
state. -/
def applyActiveQuestion (st : AppState) (id : String)
    (syncHash _scrollMobile : Bool) : AppState :=
  if id = "" || !(hasId st.questions id) then st
  else
    let st1 := { st with activeId := some id }
    let st2 := renderDesktopQuestion st1 (some id)
    let st3 := updateSidebarActive st2 (some id)
    let st4 := { st3 with
      locationHash :=
        if syncHash then setHashQuestionId st3.locationHash id else st3.locationHash }
    syncMobileAccordion st4 (some id)

/-- `handleSidebarClick` (part_000:755-768); clicking the active question
only scrolls. -/
def handleSidebarClick (st : AppState) (id : String) : AppState :=
  if id = "" || !(hasId st.questions id) then st
  else if some id == st.activeId then st
  else applyActiveQuestion st id true false

/-- `handleAccordionClick` (part_000:724-748): collapse every other open
panel; then toggle the clicked panel, activating its question on expand. -/
def handleAccordionClick (st : AppState) (id : String) : AppState :=
  if id = "" || !(st.accordionIds.contains id) then st
  else
    let isOpen := st.openPanels.contains id
    let st1 := { st with openPanels := st.openPanels.filter (fun q => q == id) }
    if isOpen then { st1 with openPanels := st1.openPanels.filter (fun q => !(q == id)) }
    else
      let st2 := { st1 with openPanels := st1.openPanels ++ [id] }
      applyActiveQuestion st2 id true false

/-- `handleHashChange` (part_000:879-889). -/
def handleHashChange (st : AppState) (isMobile : Bool) : AppState :=
  match resolveQuestionId? st.questions (extractHashId st.locationHash) with
  | none => st
  | some candidate =>
    if some candidate == st.activeId then syncMobileAccordion st (some candidate)
    else applyActiveQuestion st candidate false isMobile

/-- `handleLayoutChange` (part_000:1062-1071). -/
def handleLayoutChange (st : AppState) (isMobile : Bool) : AppState :=
  if st.questions.length == 0 then st
  else if isMobile then syncMobileAccordion st st.activeId
  else updateSidebarActive (renderDesktopQuestion st st.activeId) st.activeId

/-- `Array.from(state.questions.values()).sort((a, b) => a.order - b.order)[0]`
(part_000:216). -/
def firstByOrder (qs : List Entry) : Option Entry :=
  (List.insertionSort (fun a b => a.order ≤ b.order) qs).head?

/-- The ids of all valid items in section order — the keys of the sidebar
button map, in insertion order. -/
def validItemIds (ps : List PSec) : List String :=
  (ps.map (fun s => s.validItems.map (fun e => e.id))).flatten

/-- `hydrate` (part_000:204-232): build the index, resolve the initial active
id from the hash with the first-by-order fallback, render both views, then
apply the initial active question or show the empty-state message. -/
def hydrate (sections : List Sec) (locationHash : String) : AppState :=
  let built := buildQuestionIndex sections
  let questions := built.1
  let processedSections := built.2
  let hashCandidate := resolveQuestionId? questions (extractHashId locationHash)
  let activeId : Option String :=
    match hashCandidate with
    | some c => some c
    | none => (firstByOrder questions).map (fun e => e.id)
  let sidebarIds := validItemIds processedSections
  let accordionIds :=
    (validItemIds processedSections).filter (fun i => !(STATIC_ACCORDION_IDS.contains i))
  let st0 : AppState :=
    { questions := questions, sections := processedSections,
      sidebarIds := sidebarIds, accordionIds := accordionIds,
      activeId := activeId, sidebarActive := [], openPanels := [],
      locationHash := locationHash, viewer := ViewerContent.loading }
  let st1 := syncMobileAccordion st0 st0.activeId
  match activeId with
  | some id =>
    if !(id == "") && hasId questions id then
      let st2 := renderDesktopQuestion st1 (some id)
      let st3 := updateSidebarActive st2 (some id)
      let st4 := { st3 with locationHash := setHashQuestionId st3.locationHash id }
      syncMobileAccordion st4 (some id)
    else { st1 with viewer := ViewerContent.emptyMsg }
  | none => { st1 with viewer := ViewerContent.emptyMsg }

/-- The coordinator-relevant events after hydration. -/
inductive Op where
  | activate (id : String) (syncHash scrollMobile : Bool)
  | sidebarClick (id : String)
  | accordionClick (id : String)
  | hashChange (newHash : String) (isMobile : Bool)
  | layoutChange (isMobile : Bool)
deriving Repr, DecidableEq

def stepOp (st : AppState) : Op → AppState
  | Op.activate id syncHash scrollMobile => applyActiveQuestion st id syncHash scrollMobile
  | Op.sidebarClick id => handleSidebarClick st id
  | Op.accordionClick id => handleAccordionClick st id
  | Op.hashChange newHash isMobile => handleHashChange { st with locationHash := newHash } isMobile
  | Op.layoutChange isMobile => handleLayoutChange st isMobile

def runOps (st : AppState) : List Op → AppState
  | [] => st
  | op :: rest => runOps (stepOp st op) rest

/-! ### Keyboard navigation (part_000, first variant only) -/

/-- `navigateToQuestion` (part_000:1025-1049): wrap-around indexing into the
id list, then activation (the keyboard-focus side effect is outside the
modelled state). -/
def navigateToQuestion (st : AppState) (targetIndex : Int) (questionIds : List String)
    (isMobile : Bool) : AppState :=
  if questionIds.length == 0 then st
  else
    let wrappedIndex : Int :=
      if targetIndex ≥ (questionIds.length : Int) then 0
      else if targetIndex < 0 then (questionIds.length : Int) - 1
      else targetIndex
    let targetId := questionIds.getD wrappedIndex.toNat ""
    let st1 := applyActiveQuestion st targetId true isMobile
    if isMobile then syncMobileAccordion st1 (some targetId) else st1

/-- A thrown JS error. -/
inductive JsError where
  | referenceError (name : String)
deriving Repr, DecidableEq

/-- `handleKeyboardNavigation` (part_000:896-948).  After the input/modifier
guard, the handler evaluates `Array.from(questionIndex.keys())`
(part_000:913); the identifier `questionIndex` is not declared anywhere in
the script — the index lives in `state.questions` — so every keydown that
passes the guard throws a `ReferenceError` before the `switch` can dispatch
on the key, and `navigateToQuestion` is never reached. -/
def handleKeyboardNavigation (st : AppState) (_key targetTag : String)
    (ctrlKey metaKey : Bool) : Except JsError AppState :=
  if targetTag == "INPUT" || targetTag == "TEXTAREA" || ctrlKey || metaKey then Except.ok st
  else Except.error (JsError.referenceError "questionIndex")

/-! ### Data loader (part_000:140-146) and `init` (part_000:114-131) -/

/-- The parsed body of the fetch response: unparseable JSON, a JSON array of
sections, or any other JSON value. -/
inductive FetchBody where
  | malformed
  | jsonArray (sections : List Sec)
  | jsonNonArray
deriving Repr, DecidableEq

structure FetchResponse where
  ok : Bool
  status : Nat
  body : FetchBody
deriving Repr, DecidableEq

structure FetchRequest where
  url : String
  cache : String
deriving Repr, DecidableEq

/-- The one request issued: `fetch('assets/faq-data.json', 'cache': 'no-store')`. -/
def faqRequest : FetchRequest :=
  { url := "assets/faq-data.json", cache := "no-store" }

/-- `loadFaqData` (part_000:140-146). -/
def loadFaqData (resp : FetchResponse) : Except String (List Sec) :=
  if !resp.ok then Except.error ("HTTP " ++ toString resp.status)
  else
    match resp.body with
    | FetchBody.malformed => Except.error "JSON parse error"
    | FetchBody.jsonNonArray => Except.error "FAQ musi być tablicą sekcji"
    | FetchBody.jsonArray sections => Except.ok sections

/-- The failure rendering: the viewer message and the entry counts left in
the sidebar and accordion containers (markup abbreviated to its text). -/
structure ErrorView where
  viewerHtml : String
  sidebarEntryCount : Nat
  accordionEntryCount : Nat
deriving Repr, DecidableEq

def errorStateHtml (message : String) : String :=
  "error-state: Unable to Load Content (" ++ message ++ ")"

/-- The static no-data message of `handleDataLoadError` (part_000:1104-1109). -/
def noDataHtml : String :=
  "Brak danych FAQ – sprawdź plik faq-data.json."

/-- `showErrorState` (part_000:996-1017): error markup in the viewer, sidebar
and accordion containers cleared. -/
def showErrorState (message : String) : ErrorView :=
  { viewerHtml := errorStateHtml message, sidebarEntryCount := 0, accordionEntryCount := 0 }

/-- `handleDataLoadError` (part_000:1104-1109): overwrite the viewer with the
static no-data message. -/
def handleDataLoadError (v : ErrorView) : ErrorView :=
  { v with viewerHtml := noDataHtml }

inductive InitResult where
  | hydrated (st : AppState)
  | failed (v : ErrorView)
deriving Repr, DecidableEq

/-- `init` (part_000:114-131): exactly one fetch and no retry; on success
hydrate, on failure `showErrorState` then `handleDataLoadError`.  The first
component is the list of requests issued. -/
def initApp (resp : FetchResponse) (locationHash : String) :
    List FetchRequest × InitResult :=
  ([faqRequest],
    match loadFaqData resp with
    | Except.ok sections => InitResult.hydrated (hydrate sections locationHash)
    | Except.error e => InitResult.failed (handleDataLoadError (showErrorState e)))

/-! ### The older variant `src/assets/js/main.js` -/

namespace MainJs

/-- An entry of `flatQuestions` in main.js. -/
structure FlatQ where
  id : String
  question : String
  answer : String
  sectionName : String
deriving Repr, DecidableEq

/-- `renderDesktop` (main.js:369-444) builds `flatQuestions` by pushing every
item with a truthy id; sections without items are skipped, and duplicate ids
are NOT dropped. -/
def buildFlatQuestions (sections : List Sec) : List FlatQ :=
  (sections.map (fun s =>
    if s.items.length == 0 then []
    else
      s.items.filterMap (fun it =>
        if it.id = "" then none
        else
          some { id := it.id, question := it.q, answer := it.a,
                 sectionName := s.sectionName }))).flatten

/-- One sidebar `.side-link` button per `flatQuestions` push. -/
def mainSidebarLinkCount (sections : List Sec) : Nat :=
  (buildFlatQuestions sections).length

/-- `renderMobile` (main.js:560-602): one `.acc-item` per item with a truthy
id, sections without items skipped — duplicates again not dropped. -/
def mainAccordionItemCount (sections : List Sec) : Nat :=
  ((sections.map (fun s =>
    if s.items.length == 0 then []
    else s.items.filterMap (fun it => if it.id = "" then none else some it.id))).flatten).length

/-- The main.js page state observed by the claims. -/
structure St where
  flatQuestions : List FlatQ
  activeDesktopId : Option String
  sidebarActive : List String
  openPanels : List String
  locationHash : String
  viewerQuestion : Option String
deriving Repr, DecidableEq

/-- `renderDesktopQuestion` (main.js:304-322): unknown ids leave the viewer
untouched. -/
def renderDesktopQuestion (st : St) (id : String) : St :=
  match st.flatQuestions.find? (fun e => e.id == id) with
  | none => st
  | some _ => { st with viewerQuestion := some id }

/-- `updateSidebarActive` (main.js:324-331) over the rendered buttons (one
per `flatQuestions` entry). -/
def updateSidebarActive (st : St) (id : String) : St :=
  { st with
    sidebarActive := (st.flatQuestions.map (fun e => e.id)).filter (fun q => q == id) }

/-- `syncMobileAccordion` (main.js:87-129); a missing target item returns
early. -/
def syncMobileAccordion (st : St) (id : String) : St :=
  if id = "" then st
  else if !((st.flatQuestions.map (fun e => e.id)).contains id) then st
  else
    let collapsed := st.openPanels.filter (fun q => q == id)
    let opened := if collapsed.contains id then collapsed else collapsed ++ [id]
    { st with openPanels := opened }

/-- `applyActiveQuestion` (main.js:279-286).  The guard is only `!id`: there
is NO membership check against the rendered questions (contrast
part_000:534). -/
def applyActiveQuestion (st : St) (id : String) (syncHash _scrollMobile : Bool) : St :=
  if id = "" then st
  else
    let st1 := { st with activeDesktopId := some id }
    let st2 := renderDesktopQuestion st1 id
    let st3 := updateSidebarActive st2 id
    let st4 := { st3 with
      locationHash :=
        if syncHash then Intersophia.setHashQuestionId st3.locationHash id
        else st3.locationHash }
    syncMobileAccordion st4 id

end MainJs

/-! ### Definitions following the spec's words (for comparison only) -/

/-- One step of collecting "the unique ids of the document": ignore falsy
ids, keep the first occurrence. -/
def idStep (acc : List String) (it : Item) : List String :=
  if it.id = "" then acc
  else if acc.contains it.id then acc
  else acc ++ [it.id]

/-- Modelled from the spec: "the number of unique ids in the document
(duplicates collapse to the first occurrence)" — the document's item ids
with falsy ids ignored, first occurrence kept. -/
def uniqueIds (sections : List Sec) : List String :=
  sections.foldl (fun acc s => s.items.foldl idStep acc) []

/-- The document's raw items with their section names, flattened in order. -/
def rawRecords (sections : List Sec) : List (String × Item) :=
  (sections.map (fun s => s.items.map (fun it => (s.sectionName, it)))).flatten

lemma length_dropWhile_le {α : Type} (p : α → Bool) (l : List α) :
    (l.dropWhile p).length ≤ l.length := by
  induction l with
  | nil => simp [List.dropWhile]
  | cons a l ih =>
    simp only [List.dropWhile]
    split
    · exact Nat.le_succ_of_le ih
    · exact Nat.le_refl _

/-- Modelled from the claim wording for `formatBulletPoints`: group every
maximal run of consecutive bullet lines into one `<ul>` of the trimmed
after-marker texts, keep other non-empty lines, drop empty non-bullet lines;
a trailing run is closed by the `[]` case. -/
def specGroup : List String → List String
  | [] => []
  | line :: rest =>
    if _h : isBulletLine line = true then
      mkUl (((line :: rest).takeWhile isBulletLine).map bulletContent) ::
        specGroup ((line :: rest).dropWhile isBulletLine)
    else if jsTrim line = "" then specGroup rest
    else line :: specGroup rest
termination_by l => l.length
decreasing_by
  · simp only [List.dropWhile, _h, List.length_cons]
    exact Nat.lt_succ_of_le (length_dropWhile_le isBulletLine rest)
  · simp only [List.length_cons]
    exact Nat.lt_succ_self _
  · simp only [List.length_cons]
    exact Nat.lt_succ_self _

/-- The claim's description of `formatBulletPoints`, as a whole-string
transformation. -/
def formatBulletPointsSpec (text : String) : String :=
  if text = "" then text
  else joinSep "\n" (specGroup (splitLines text))

lemma fbLoop_true_eq (ls : List String) :
    ∀ cur, cur ≠ [] →
      fbLoop ls true cur =
        mkUl (cur ++ (ls.takeWhile isBulletLine).map bulletContent) ::
          fbLoop (ls.dropWhile isBulletLine) false [] := by
  induction ls with
  | nil =>
    intro cur hcur
    have hlen : 0 < cur.length := List.length_pos.mpr hcur
    simp [fbLoop, List.takeWhile, List.dropWhile, hlen]
  | cons l ls ih =>
    intro cur hcur
    by_cases h : isBulletLine l
    · have hne : cur ++ [bulletContent l] ≠ [] := by simp
      simp only [fbLoop, h, if_true, if_pos, List.takeWhile, List.dropWhile]
      rw [ih (cur ++ [bulletContent l]) hne]
      simp [h, List.append_assoc]
    · simp only [fbLoop, h, if_false, List.takeWhile, List.dropWhile]
      have hlen : 0 < cur.length := List.length_pos.mpr hcur
      simp [h, hlen, fbLoop]

lemma fbLoop_false_eq_specGroup (ls : List String) :
    fbLoop ls false [] = specGroup ls := by
  generalize hn : ls.length = n
  induction n using Nat.strong_induction_on generalizing ls with
  | _ n ih =>
    match ls, hn with
    | [], _ => simp [fbLoop, specGroup]
    | l :: ls, hn =>
      have hn2 : ls.length + 1 = n := by simpa using hn
      by_cases h : isBulletLine l
      · rw [specGroup, dif_pos h]
        have hstep : fbLoop (l :: ls) false [] = fbLoop ls true [bulletContent l] := by
          simp [fbLoop, h]
        rw [hstep, fbLoop_true_eq ls [bulletContent l] (by simp)]
        have hdrop : (l :: ls).dropWhile isBulletLine = ls.dropWhile isBulletLine := by
          simp [List.dropWhile, h]
        have htake : (l :: ls).takeWhile isBulletLine = l :: ls.takeWhile isBulletLine := by
          simp [List.takeWhile, h]
        rw [hdrop, htake]
        have hlt : (ls.dropWhile isBulletLine).length < n := by
          have hle := length_dropWhile_le isBulletLine ls
          omega
        rw [ih _ hlt _ rfl]
        simp
      · rw [specGroup, dif_neg h]
        have hlt : ls.length < n := by omega
        by_cases ht : jsTrim l = ""
        · rw [if_pos ht]
          have hstep : fbLoop (l :: ls) false [] = fbLoop ls false [] := by
            simp [fbLoop, h, ht]
          rw [hstep, ih _ hlt _ rfl]
        · rw [if_neg ht]
          have hstep : fbLoop (l :: ls) false [] = l :: fbLoop ls false [] := by
            simp [fbLoop, h, ht]
          rw [hstep, ih _ hlt _ rfl]

lemma formatBulletPoints_eq_spec (s : String) :
    formatBulletPoints s = formatBulletPointsSpec s := by
  unfold formatBulletPoints formatBulletPointsSpec
  by_cases h : s = ""
  · simp [h]
  · simp [h, fbLoop_false_eq_specGroup]

/-! ### Structural lemmas about the index builder -/

/-- All valid-item entries of the processed sections, flattened in order. -/
def validEntries (ps : List PSec) : List Entry :=
  (ps.map (fun s => s.validItems)).flatten

lemma beq_comm_str (a b : String) : (a == b) = (b == a) := by
  rw [Bool.eq_iff_iff]
  constructor <;> intro h <;> simp_all [beq_iff_eq]

lemma contains_map_id (qs : List Entry) (x : String) :
    (qs.map (fun e => e.id)).contains x = hasId qs x := by
  induction qs with
  | nil => rfl
  | cons e qs ih =>
    simp only [List.map_cons, List.contains_cons, hasId, List.any_cons] at *
    rw [beq_comm_str x e.id, ih]

lemma processItems_fst (sec : String) (qs : List Entry) (its : List Item) :
    (processItems sec qs its).1 = qs ++ (processItems sec qs its).2 := by
  induction its generalizing qs with
  | nil => simp [processItems]
  | cons it rest ih =>
    by_cases h1 : it.id = ""
    · simp [processItems, insertItem, h1, ih]
    · by_cases h2 : hasId qs it.id
      · simp [processItems, insertItem, h1, h2, ih]
      · simp [processItems, insertItem, h1, h2]
        rw [ih (qs ++ [_])]
        simp

lemma processSections_fst (qs : List Entry) (secs : List Sec) :
    (processSections qs secs).1 = qs ++ validEntries (processSections qs secs).2 := by
  induction secs generalizing qs with
  | nil => simp [processSections, validEntries]
  | cons s rest ih =>
    simp only [processSections, validEntries, List.map_cons, List.flatten_cons]
    rw [ih, processItems_fst]
    simp [validEntries]

lemma buildQuestionIndex_fst_eq (secs : List Sec) :
    (buildQuestionIndex secs).1 = validEntries (buildQuestionIndex secs).2 := by
  simpa [buildQuestionIndex] using processSections_fst [] secs

lemma validItemIds_eq (ps : List PSec) :
    validItemIds ps = (validEntries ps).map (fun e => e.id) := by
  induction ps with
  | nil => rfl
  | cons s rest ih => simp_all [validItemIds, validEntries]

lemma not_mem_map_id_of_hasId_false {qs : List Entry} {x : String}
    (h : hasId qs x = false) : x ∉ qs.map (fun e => e.id) := by
  simp only [hasId, List.any_eq_false, beq_iff_eq] at h
  simp only [List.mem_map, not_exists, not_and]
  intro e he hex
  exact h e he hex

lemma insertItem_skip_empty {sec : String} {qs : List Entry} {it : Item}
    (h1 : it.id = "") : insertItem sec qs it = (qs, none) := by
  simp [insertItem, h1]

lemma insertItem_skip_dup {sec : String} {qs : List Entry} {it : Item}
    (h1 : ¬it.id = "") (h2 : hasId qs it.id = true) :
    insertItem sec qs it = (qs, none) := by
  simp [insertItem, h1, h2]

lemma insertItem_accept {sec : String} {qs : List Entry} {it : Item}
    (h1 : ¬it.id = "") (h2 : ¬hasId qs it.id = true) :
    insertItem sec qs it =
      (qs ++ [{ id := it.id, sectionName := sec, question := it.q, answer := it.a,
                order := qs.length }],
        some { id := it.id, sectionName := sec, question := it.q, answer := it.a,
               order := qs.length }) := by
  simp [insertItem, h1, h2]

lemma idStep_empty {acc : List String} {it : Item} (h1 : it.id = "") :
    idStep acc it = acc := by
  simp [idStep, h1]

lemma idStep_map_dup {qs : List Entry} {it : Item} (h1 : ¬it.id = "")
    (h2 : hasId qs it.id = true) :
    idStep (qs.map (fun e => e.id)) it = qs.map (fun e => e.id) := by
  simp only [hasId, List.any_eq_true, beq_iff_eq] at h2
  simp [idStep, h1, contains_map_id, hasId, List.any_eq_true, beq_iff_eq, h2]

lemma idStep_map_accept {qs : List Entry} {it : Item} (h1 : ¬it.id = "")
    (h2 : ¬hasId qs it.id = true) :
    idStep (qs.map (fun e => e.id)) it = qs.map (fun e => e.id) ++ [it.id] := by
  simp only [hasId, List.any_eq_true, beq_iff_eq] at h2
  simp [idStep, h1, contains_map_id, hasId, List.any_eq_true, beq_iff_eq, h2]

lemma processItems_map_id (sec : String) (qs : List Entry) (its : List Item) :
    (processItems sec qs its).1.map (fun e => e.id) =
      its.foldl idStep (qs.map (fun e => e.id)) := by
  induction its generalizing qs with
  | nil => simp [processItems]
  | cons it rest ih =>
    by_cases h1 : it.id = ""
    · simp only [processItems, insertItem_skip_empty h1, List.foldl_cons, idStep_empty h1]
      exact ih qs
    · by_cases h2 : hasId qs it.id
      · simp only [processItems, insertItem_skip_dup h1 h2, List.foldl_cons,
          idStep_map_dup h1 h2]
        exact ih qs
      · simp only [processItems, insertItem_accept h1 h2, List.foldl_cons,
          idStep_map_accept h1 h2]
        rw [ih (qs ++ [_])]
        simp

lemma processSections_map_id (qs : List Entry) (secs : List Sec) :
    (processSections qs secs).1.map (fun e => e.id) =
      secs.foldl (fun acc s => s.items.foldl idStep acc) (qs.map (fun e => e.id)) := by
  induction secs generalizing qs with
  | nil => simp [processSections]
  | cons s rest ih =>
    simp only [processSections, List.foldl_cons]
    rw [ih, processItems_map_id]

lemma build_map_id (secs : List Sec) :
    (buildQuestionIndex secs).1.map (fun e => e.id) = uniqueIds secs := by
  simpa [buildQuestionIndex, uniqueIds] using processSections_map_id [] secs

lemma processItems_nodup (sec : String) (qs : List Entry) (its : List Item)
    (h : (qs.map (fun e => e.id)).Nodup) :
    ((processItems sec qs its).1.map (fun e => e.id)).Nodup := by
  induction its generalizing qs with
  | nil => simpa [processItems]
  | cons it rest ih =>
    by_cases h1 : it.id = ""
    · simp only [processItems, insertItem_skip_empty h1]
      exact ih qs h
    · by_cases h2 : hasId qs it.id
      · simp only [processItems, insertItem_skip_dup h1 h2]
        exact ih qs h
      · simp only [processItems, insertItem_accept h1 h2]
        refine ih (qs ++ [_]) ?_
        rw [List.map_append, List.nodup_append]
        refine ⟨h, List.nodup_singleton _, ?_⟩
        intro a ha hb
        simp only [List.map_cons, List.map_nil, List.mem_singleton] at hb
        subst hb
        exact not_mem_map_id_of_hasId_false ((Bool.not_eq_true _).mp h2) ha

lemma processSections_nodup (qs : List Entry) (secs : List Sec)
    (h : (qs.map (fun e => e.id)).Nodup) :
    ((processSections qs secs).1.map (fun e => e.id)).Nodup := by
  induction secs generalizing qs with
  | nil => simpa [processSections]
  | cons s rest ih =>
    simp only [processSections]
    exact ih _ (processItems_nodup s.sectionName qs s.items h)

lemma build_nodup (secs : List Sec) :
    ((buildQuestionIndex secs).1.map (fun e => e.id)).Nodup := by
  simpa [buildQuestionIndex] using processSections_nodup [] secs (by simp)

lemma processItems_orders (sec : String) (qs : List Entry) (its : List Item)
    (h : qs.map (fun e => e.order) = List.range qs.length) :
    (processItems sec qs its).1.map (fun e => e.order) =
      List.range (processItems sec qs its).1.length := by
  induction its generalizing qs with
  | nil => simpa [processItems]
  | cons it rest ih =>
    by_cases h1 : it.id = ""
    · simp only [processItems, insertItem_skip_empty h1]
      exact ih qs h
    · by_cases h2 : hasId qs it.id
      · simp only [processItems, insertItem_skip_dup h1 h2]
        exact ih qs h
      · simp only [processItems, insertItem_accept h1 h2]
        refine ih (qs ++ [_]) ?_
        simp [List.map_append, h, List.range_succ]

lemma processSections_orders (qs : List Entry) (secs : List Sec)
    (h : qs.map (fun e => e.order) = List.range qs.length) :
    (processSections qs secs).1.map (fun e => e.order) =
      List.range (processSections qs secs).1.length := by
  induction secs generalizing qs with
  | nil => simpa [processSections]
  | cons s rest ih =>
    simp only [processSections]
    exact ih _ (processItems_orders s.sectionName qs s.items h)

lemma build_orders (secs : List Sec) :
    (buildQuestionIndex secs).1.map (fun e => e.order) =
      List.range (buildQuestionIndex secs).1.length := by
  simpa [buildQuestionIndex] using processSections_orders [] secs (by simp)

lemma build_sorted (secs : List Sec) :
    List.Sorted (fun a b => a.order ≤ b.order) (buildQuestionIndex secs).1 := by
  have hp : List.Pairwise (fun a b => a ≤ b)
      ((buildQuestionIndex secs).1.map (fun e => e.order)) := by
    rw [build_orders]
    exact (List.pairwise_lt_range _).imp Nat.le_of_lt
  rw [List.pairwise_map] at hp
  exact hp

lemma firstByOrder_build (secs : List Sec) :
    firstByOrder (buildQuestionIndex secs).1 = (buildQuestionIndex secs).1.head? := by
  unfold firstByOrder
  rw [List.Sorted.insertionSort_eq (build_sorted secs)]

/-! ### First-occurrence-wins characterisation of the index -/

/-- The question/answer/section text of an entry. -/
def projQA (e : Entry) : String × String × String :=
  (e.question, e.answer, e.sectionName)

lemma option_map_or {α β : Type} (f : α → β) (o o2 : Option α) :
    (o.or o2).map f = (o.map f).or (o2.map f) := by
  cases o <;> rfl

lemma option_or_assoc {α : Type} (a b c : Option α) :
    (a.or b).or c = a.or (b.or c) := by
  cases a <;> rfl

lemma findQ_isSome_of_hasId {qs : List Entry} {id : String}
    (h : hasId qs id = true) :
    ∃ e, qs.find? (fun e => e.id == id) = some e := by
  have hs : (qs.find? (fun e => e.id == id)).isSome := by
    rw [List.find?_isSome]
    simpa [hasId, List.any_eq_true] using h
  exact Option.isSome_iff_exists.mp hs

lemma findQ_none {qs : List Entry} {id : String} (h : hasId qs id = false) :
    qs.find? (fun e => e.id == id) = none := by
  rw [List.find?_eq_none]
  simp only [hasId, List.any_eq_false] at h
  exact h

lemma find?_map_list {α β : Type} (f : α → β) (p : β → Bool) (l : List α) :
    (l.map f).find? p = (l.find? (fun a => p (f a))).map f := by
  induction l with
  | nil => rfl
  | cons a l ih =>
    simp only [List.map_cons, List.find?]
    cases h : p (f a) <;> simp [h, ih]

lemma processItems_find (sec : String) (qs : List Entry) (its : List Item)
    (id : String) :
    ((processItems sec qs its).1.find? (fun e => e.id == id)).map projQA =
      ((qs.find? (fun e => e.id == id)).map projQA).or
        ((its.find? (fun it => !(it.id == "") && it.id == id)).map
          (fun it => (it.q, it.a, sec))) := by
  induction its generalizing qs with
  | nil =>
    simp only [processItems, List.find?_nil]
    cases qs.find? (fun e => e.id == id) <;> rfl
  | cons it rest ih =>
    by_cases h1 : it.id = ""
    · simp only [processItems, insertItem_skip_empty h1]
      rw [List.find?_cons_of_neg _ (by simp [h1])]
      exact ih qs
    · by_cases h2 : hasId qs it.id
      · by_cases h3 : it.id = id
        · subst h3
          obtain ⟨e, he⟩ := findQ_isSome_of_hasId h2
          simp only [processItems, insertItem_skip_dup h1 h2, ih qs, he]
          rw [List.find?_cons_of_pos _ (by simp [h1])]
          rfl
        · simp only [processItems, insertItem_skip_dup h1 h2]
          rw [List.find?_cons_of_neg _ (by simp [h1, h3])]
          exact ih qs
      · by_cases h3 : it.id = id
        · subst h3
          have hnone : qs.find? (fun e => e.id == it.id) = none :=
            findQ_none ((Bool.not_eq_true _).mp h2)
          have hsingle : List.find? (fun e => e.id == it.id)
              [({ id := it.id, sectionName := sec, question := it.q, answer := it.a,
                  order := qs.length } : Entry)] =
              some { id := it.id, sectionName := sec, question := it.q, answer := it.a,
                     order := qs.length } := by
            simp [List.find?]
          simp only [processItems, insertItem_accept h1 h2, ih (qs ++ [_])]
          rw [List.find?_append, hnone, hsingle]
          rw [List.find?_cons_of_pos _ (by simp [h1])]
          rfl
        · have hb3 : (it.id == id) = false := by
            simp [beq_eq_false_iff_ne, h3]
          have hsingle : List.find? (fun e => e.id == id)
              [({ id := it.id, sectionName := sec, question := it.q, answer := it.a,
                  order := qs.length } : Entry)] = none := by
            simp [List.find?, hb3]
          simp only [processItems, insertItem_accept h1 h2, ih (qs ++ [_])]
          rw [List.find?_append, hsingle]
          rw [List.find?_cons_of_neg _ (by simp [h1, h3])]
          simp only [Option.or_none]

lemma rawRecords_cons (s : Sec) (rest : List Sec) :
    rawRecords (s :: rest) =
      s.items.map (fun it => (s.sectionName, it)) ++ rawRecords rest := by
  simp [rawRecords]

lemma processSections_find (qs : List Entry) (secs : List Sec) (id : String) :
    ((processSections qs secs).1.find? (fun e => e.id == id)).map projQA =
      ((qs.find? (fun e => e.id == id)).map projQA).or
        (((rawRecords secs).find? (fun p => !(p.2.id == "") && p.2.id == id)).map
          (fun p => (p.2.q, p.2.a, p.1))) := by
  induction secs generalizing qs with
  | nil =>
    simp only [processSections, rawRecords, List.map_nil, List.flatten_nil,
      List.find?_nil, Option.map_none]
    cases (qs.find? (fun e => e.id == id)).map projQA <;> rfl
  | cons s rest ih =>
    simp only [processSections]
    rw [ih, processItems_find, option_or_assoc]
    congr 1
    rw [rawRecords_cons, List.find?_append, option_map_or]
    congr 1
    rw [find?_map_list, Option.map_map]
    rfl

lemma build_find (secs : List Sec) (id : String) :
    ((buildQuestionIndex secs).1.find? (fun e => e.id == id)).map projQA =
      ((rawRecords secs).find? (fun p => !(p.2.id == "") && p.2.id == id)).map
        (fun p => (p.2.q, p.2.a, p.1)) := by
  have h := processSections_find [] secs id
  simpa [buildQuestionIndex] using h

/-! ### Rendered entry counts -/

lemma string_contains_iff {l : List String} {x : String} :
    l.contains x = true ↔ x ∈ l := List.elem_iff

lemma sidebarLinkCount_section (s : PSec) :
    (if s.validItems.length == 0 then ([] : List SideNode)
     else
       (if s.hideHeading then [] else [SideNode.heading s.sectionName]) ++
         s.validItems.map (fun e => SideNode.link e.id e.question)).countP isSideLink =
      s.validItems.length := by
  by_cases h0 : s.validItems.length = 0
  · simp [h0]
  · have hb : (s.validItems.length == 0) = false := by simp [h0]
    rw [if_neg (by simp [hb, h0])]
    rw [List.countP_append]
    have hhead : ((if s.hideHeading then [] else [SideNode.heading s.sectionName]) :
        List SideNode).countP isSideLink = 0 := by
      by_cases hh : s.hideHeading <;> simp [hh, List.countP_cons, isSideLink]
    have hlinks : (s.validItems.map (fun e => SideNode.link e.id e.question)).countP
        isSideLink = s.validItems.length := by
      refine Eq.trans (List.countP_eq_length.mpr ?_) (List.length_map _ _)
      intro a ha
      obtain ⟨e, _, rfl⟩ := List.mem_map.mp ha
      rfl
    rw [hhead, hlinks]
    omega

lemma sidebarLinkCount_eq (ps : List PSec) :
    sidebarLinkCount ps = (validEntries ps).length := by
  induction ps with
  | nil => rfl
  | cons s rest ih =>
    simp only [sidebarLinkCount, renderDesktopNodes, List.map_cons, List.flatten_cons,
      List.countP_append, validEntries, List.length_append] at *
    rw [ih, sidebarLinkCount_section]

lemma accordionEntryCount_section (s : PSec) :
    (if s.validItems.length == 0 then ([] : List AccNode)
     else
       (if s.hideHeading then [] else [AccNode.heading s.sectionName]) ++
         s.validItems.map (fun e =>
           if STATIC_ACCORDION_IDS.contains e.id then createStaticAccordionBlock e
           else createAccordionItem e)).countP isAccEntry =
      s.validItems.length := by
  by_cases h0 : s.validItems.length = 0
  · simp [h0]
  · rw [if_neg (by simp [h0])]
    rw [List.countP_append]
    have hhead : ((if s.hideHeading then [] else [AccNode.heading s.sectionName]) :
        List AccNode).countP isAccEntry = 0 := by
      by_cases hh : s.hideHeading <;> simp [hh, List.countP_cons, isAccEntry]
    have hentries : (s.validItems.map (fun e =>
        if STATIC_ACCORDION_IDS.contains e.id then createStaticAccordionBlock e
        else createAccordionItem e)).countP isAccEntry = s.validItems.length := by
      refine Eq.trans (List.countP_eq_length.mpr ?_) (List.length_map _ _)
      intro a ha
      obtain ⟨e, _, rfl⟩ := List.mem_map.mp ha
      by_cases hs : e.id ∈ STATIC_ACCORDION_IDS <;>
        simp [hs, createStaticAccordionBlock, createAccordionItem, isAccEntry]
    rw [hhead, hentries]
    omega

lemma accordionEntryCount_eq (ps : List PSec) :
    accordionEntryCount ps = (validEntries ps).length := by
  induction ps with
  | nil => rfl
  | cons s rest ih =>
    simp only [accordionEntryCount, renderMobileNodes, List.map_cons, List.flatten_cons,
      List.countP_append, validEntries, List.length_append] at *
    rw [ih, accordionEntryCount_section]

lemma filterMap_length_eq {α β γ : Type} (f : α → Option β) (g : α → Option γ)
    (h : ∀ a, (f a).isSome = (g a).isSome) (l : List α) :
    (l.filterMap f).length = (l.filterMap g).length := by
  induction l with
  | nil => rfl
  | cons a l ih =>
    have ha := h a
    rw [List.filterMap_cons, List.filterMap_cons]
    cases hf : f a <;> cases hg : g a <;> simp_all

lemma mainjs_counts_eq (secs : List Sec) :
    MainJs.mainSidebarLinkCount secs = MainJs.mainAccordionItemCount secs := by
  unfold MainJs.mainSidebarLinkCount MainJs.mainAccordionItemCount MainJs.buildFlatQuestions
  induction secs with
  | nil => rfl
  | cons s rest ih =>
    simp only [List.map_cons, List.flatten_cons, List.length_append]
    rw [ih]
    congr 1
    by_cases h0 : s.items.length == 0
    · simp [h0]
    · rw [if_neg (by simp_all), if_neg (by simp_all)]
      exact filterMap_length_eq _ _ (fun it => by by_cases hi : it.id = "" <;> simp [hi]) _

/-! ### Field-preservation lemmas for the coordinator operations -/

@[simp] lemma rdq_questions (st : AppState) (id? : Option String) :
    (renderDesktopQuestion st id?).questions = st.questions := by
  cases id? with
  | none => rfl
  | some id => cases h2 : getQ st.questions id <;> simp [renderDesktopQuestion, h2]

@[simp] lemma rdq_activeId (st : AppState) (id? : Option String) :
    (renderDesktopQuestion st id?).activeId = st.activeId := by
  cases id? with
  | none => rfl
  | some id => cases h2 : getQ st.questions id <;> simp [renderDesktopQuestion, h2]

@[simp] lemma rdq_sidebarIds (st : AppState) (id? : Option String) :
    (renderDesktopQuestion st id?).sidebarIds = st.sidebarIds := by
  cases id? with
  | none => rfl
  | some id => cases h2 : getQ st.questions id <;> simp [renderDesktopQuestion, h2]

@[simp] lemma rdq_accordionIds (st : AppState) (id? : Option String) :
    (renderDesktopQuestion st id?).accordionIds = st.accordionIds := by
  cases id? with
  | none => rfl
  | some id => cases h2 : getQ st.questions id <;> simp [renderDesktopQuestion, h2]

@[simp] lemma rdq_sidebarActive (st : AppState) (id? : Option String) :
    (renderDesktopQuestion st id?).sidebarActive = st.sidebarActive := by
  cases id? with
  | none => rfl
  | some id => cases h2 : getQ st.questions id <;> simp [renderDesktopQuestion, h2]

@[simp] lemma rdq_openPanels (st : AppState) (id? : Option String) :
    (renderDesktopQuestion st id?).openPanels = st.openPanels := by
  cases id? with
  | none => rfl
  | some id => cases h2 : getQ st.questions id <;> simp [renderDesktopQuestion, h2]

@[simp] lemma rdq_locationHash (st : AppState) (id? : Option String) :
    (renderDesktopQuestion st id?).locationHash = st.locationHash := by
  cases id? with
  | none => rfl
  | some id => cases h2 : getQ st.questions id <;> simp [renderDesktopQuestion, h2]

@[simp] lemma rdq_sections (st : AppState) (id? : Option String) :
    (renderDesktopQuestion st id?).sections = st.sections := by
  cases id? with
  | none => rfl
  | some id => cases h2 : getQ st.questions id <;> simp [renderDesktopQuestion, h2]

@[simp] lemma usa_sections (st : AppState) (id? : Option String) :
    (updateSidebarActive st id?).sections = st.sections := rfl

@[simp] lemma sync_sections (st : AppState) (id? : Option String) :
    (syncMobileAccordion st id?).sections = st.sections := by
  cases id? with
  | none => rfl
  | some id =>
    simp only [syncMobileAccordion]
    split <;> first | rfl | (split <;> rfl)

@[simp] lemma usa_questions (st : AppState) (id? : Option String) :
    (updateSidebarActive st id?).questions = st.questions := rfl

@[simp] lemma usa_activeId (st : AppState) (id? : Option String) :
    (updateSidebarActive st id?).activeId = st.activeId := rfl

@[simp] lemma usa_sidebarIds (st : AppState) (id? : Option String) :
    (updateSidebarActive st id?).sidebarIds = st.sidebarIds := rfl

@[simp] lemma usa_accordionIds (st : AppState) (id? : Option String) :
    (updateSidebarActive st id?).accordionIds = st.accordionIds := rfl

@[simp] lemma usa_openPanels (st : AppState) (id? : Option String) :
    (updateSidebarActive st id?).openPanels = st.openPanels := rfl

@[simp] lemma usa_locationHash (st : AppState) (id? : Option String) :
    (updateSidebarActive st id?).locationHash = st.locationHash := rfl

@[simp] lemma usa_viewer (st : AppState) (id? : Option String) :
    (updateSidebarActive st id?).viewer = st.viewer := rfl

lemma usa_sidebarActive (st : AppState) (id? : Option String) :
    (updateSidebarActive st id?).sidebarActive =
      st.sidebarIds.filter (fun q => some q == id?) := rfl

@[simp] lemma sync_questions (st : AppState) (id? : Option String) :
    (syncMobileAccordion st id?).questions = st.questions := by
  cases id? with
  | none => rfl
  | some id =>
    simp only [syncMobileAccordion]
    split <;> first | rfl | (split <;> rfl)

@[simp] lemma sync_activeId (st : AppState) (id? : Option String) :
    (syncMobileAccordion st id?).activeId = st.activeId := by
  cases id? with
  | none => rfl
  | some id =>
    simp only [syncMobileAccordion]
    split <;> first | rfl | (split <;> rfl)

@[simp] lemma sync_sidebarIds (st : AppState) (id? : Option String) :
    (syncMobileAccordion st id?).sidebarIds = st.sidebarIds := by
  cases id? with
  | none => rfl
  | some id =>
    simp only [syncMobileAccordion]
    split <;> first | rfl | (split <;> rfl)

@[simp] lemma sync_accordionIds (st : AppState) (id? : Option String) :
    (syncMobileAccordion st id?).accordionIds = st.accordionIds := by
  cases id? with
  | none => rfl
  | some id =>
    simp only [syncMobileAccordion]
    split <;> first | rfl | (split <;> rfl)

@[simp] lemma sync_sidebarActive (st : AppState) (id? : Option String) :
    (syncMobileAccordion st id?).sidebarActive = st.sidebarActive := by
  cases id? with
  | none => rfl
  | some id =>
    simp only [syncMobileAccordion]
    split <;> first | rfl | (split <;> rfl)

@[simp] lemma sync_locationHash (st : AppState) (id? : Option String) :
    (syncMobileAccordion st id?).locationHash = st.locationHash := by
  cases id? with
  | none => rfl
  | some id =>
    simp only [syncMobileAccordion]
    split <;> first | rfl | (split <;> rfl)

@[simp] lemma sync_viewer (st : AppState) (id? : Option String) :
    (syncMobileAccordion st id?).viewer = st.viewer := by
  cases id? with
  | none => rfl
  | some id =>
    simp only [syncMobileAccordion]
    split <;> first | rfl | (split <;> rfl)

/-! ### The one-active / one-open invariant -/

lemma filter_length_le_one {l : List String} (h : l.Nodup) (p : String → Bool)
    (hp : ∀ a b, p a = true → p b = true → a = b) :
    (l.filter p).length ≤ 1 := by
  induction l with
  | nil => simp
  | cons a l ih =>
    rcases List.nodup_cons.mp h with ⟨ha, hl⟩
    by_cases hpa : p a = true
    · have hnil : l.filter p = [] := by
        rw [List.filter_eq_nil_iff]
        intro b hb hpb
        have hab : a ∈ l := by
          rw [hp a b hpa hpb]
          exact hb
        exact ha hab
      simp [List.filter_cons, hpa, hnil]
    · simp only [List.filter_cons, if_neg hpa]
      exact ih hl

lemma pred_some_eq (id? : Option String) :
    ∀ a b : String, (some a == id?) = true → (some b == id?) = true → a = b := by
  cases id? with
  | none => intro a b ha hb; simp at ha
  | some id =>
    intro a b ha hb
    have ha2 : a = id := by simpa using ha
    have hb2 : b = id := by simpa using hb
    rw [ha2, hb2]

lemma pred_beq_eq (id : String) :
    ∀ a b : String, (a == id) = true → (b == id) = true → a = b := by
  intro a b ha hb
  rw [eq_of_beq ha, eq_of_beq hb]

lemma filter_eq_nil_of_not_contains {l : List String} {id : String}
    (h : ¬l.contains id = true) : l.filter (fun q => q == id) = [] := by
  rw [List.filter_eq_nil_iff]
  intro b hb hpb
  refine h (string_contains_iff.mpr ?_)
  rw [← eq_of_beq hpb]
  exact hb

/-- The spec's run-time guarantee: the rendered sidebar ids are duplicate
free, at most one sidebar control carries the active classes, and at most
one accordion panel carries the `open` class. -/
def StateInv (st : AppState) : Prop :=
  st.sidebarIds.Nodup ∧ st.sidebarActive.length ≤ 1 ∧ st.openPanels.length ≤ 1

lemma sync_openPanels_le {st : AppState} (h : st.openPanels.length ≤ 1)
    (id? : Option String) :
    (syncMobileAccordion st id?).openPanels.length ≤ 1 := by
  cases id? with
  | none => simpa [syncMobileAccordion] using h
  | some id =>
    simp only [syncMobileAccordion]
    split
    · exact h
    · split
      · exact h
      · simp only []
        by_cases hc : (st.openPanels.filter (fun q => q == id)).contains id = true
        · rw [if_pos hc]
          exact le_trans (List.length_filter_le _ _) h
        · rw [if_neg hc]
          have hnil : st.openPanels.filter (fun q => q == id) = [] := by
            cases hfil : st.openPanels.filter (fun q => q == id) with
            | nil => rfl
            | cons c cs =>
              exfalso
              have hcmem : c ∈ st.openPanels.filter (fun q => q == id) := by
                rw [hfil]
                exact List.mem_cons_self _ _
              have hbeq := List.of_mem_filter hcmem
              have hcid : c = id := eq_of_beq hbeq
              subst hcid
              exact hc (string_contains_iff.mpr hcmem)
          rw [hnil]
          simp

lemma applyActiveQuestion_inv {st : AppState} (h : StateInv st) (id : String)
    (sh sm : Bool) : StateInv (applyActiveQuestion st id sh sm) := by
  obtain ⟨h1, h2, h3⟩ := h
  unfold applyActiveQuestion
  split
  · exact ⟨h1, h2, h3⟩
  · refine ⟨?_, ?_, ?_⟩
    · simp only [sync_sidebarIds, usa_sidebarIds, rdq_sidebarIds]
      exact h1
    · simp only [sync_sidebarActive, usa_sidebarActive, rdq_sidebarIds, sync_sidebarIds]
      exact filter_length_le_one h1 _ (pred_some_eq _)
    · refine sync_openPanels_le ?_ _
      simp only [usa_openPanels, rdq_openPanels]
      exact h3

lemma handleSidebarClick_inv {st : AppState} (h : StateInv st) (id : String) :
    StateInv (handleSidebarClick st id) := by
  unfold handleSidebarClick
  split
  · exact h
  · split
    · exact h
    · exact applyActiveQuestion_inv h id true false

lemma handleAccordionClick_inv {st : AppState} (h : StateInv st) (id : String) :
    StateInv (handleAccordionClick st id) := by
  obtain ⟨h1, h2, h3⟩ := h
  unfold handleAccordionClick
  split
  · exact ⟨h1, h2, h3⟩
  · simp only []
    split
    · exact ⟨h1, h2,
        le_trans (List.length_filter_le _ _) (le_trans (List.length_filter_le _ _) h3)⟩
    · rename_i hopen
      refine applyActiveQuestion_inv ?_ id true false
      refine ⟨h1, h2, ?_⟩
      simp only []
      rw [filter_eq_nil_of_not_contains hopen]
      simp

lemma handleHashChange_inv {st : AppState} (h : StateInv st) (m : Bool) :
    StateInv (handleHashChange st m) := by
  unfold handleHashChange
  cases hres : resolveQuestionId? st.questions (extractHashId st.locationHash) with
  | none => exact h
  | some c =>
    simp only []
    split
    · refine ⟨?_, ?_, ?_⟩
      · simp only [sync_sidebarIds]
        exact h.1
      · simp only [sync_sidebarActive]
        exact h.2.1
      · exact sync_openPanels_le h.2.2 _
    · exact applyActiveQuestion_inv h c false m

lemma handleLayoutChange_inv {st : AppState} (h : StateInv st) (m : Bool) :
    StateInv (handleLayoutChange st m) := by
  unfold handleLayoutChange
  split
  · exact h
  · split
    · refine ⟨?_, ?_, ?_⟩
      · simp only [sync_sidebarIds]
        exact h.1
      · simp only [sync_sidebarActive]
        exact h.2.1
      · exact sync_openPanels_le h.2.2 _
    · refine ⟨?_, ?_, ?_⟩
      · simp only [usa_sidebarIds, rdq_sidebarIds]
        exact h.1
      · simp only [usa_sidebarActive, rdq_sidebarIds]
        exact filter_length_le_one h.1 _ (pred_some_eq _)
      · simp only [usa_openPanels, rdq_openPanels]
        exact h.2.2

lemma stepOp_inv {st : AppState} (h : StateInv st) (op : Op) :
    StateInv (stepOp st op) := by
  cases op with
  | activate id sh sm => exact applyActiveQuestion_inv h id sh sm
  | sidebarClick id => exact handleSidebarClick_inv h id
  | accordionClick id => exact handleAccordionClick_inv h id
  | hashChange nh m =>
    refine handleHashChange_inv ?_ m
    exact ⟨h.1, h.2.1, h.2.2⟩
  | layoutChange m => exact handleLayoutChange_inv h m

lemma runOps_inv {st : AppState} (h : StateInv st) (ops : List Op) :
    StateInv (runOps st ops) := by
  induction ops generalizing st with
  | nil => exact h
  | cons op rest ih => exact ih (stepOp_inv h op)

/-! ### Hydration lemmas -/

lemma option_some_or {α : Type} (a : α) (o : Option α) : (some a).or o = some a := rfl

lemma option_none_or {α : Type} (o : Option α) : (Option.none).or o = o := by
  cases o <;> rfl

lemma hydrate_questions (secs : List Sec) (lh : String) :
    (hydrate secs lh).questions = (buildQuestionIndex secs).1 := by
  simp only [hydrate]
  cases hA : resolveQuestionId? (buildQuestionIndex secs).1 (extractHashId lh) with
  | some c =>
    try dsimp only [Option.map]
    split <;> simp
  | none =>
    try dsimp only [Option.map]
    cases hF : firstByOrder (buildQuestionIndex secs).1 with
    | none => simp
    | some e =>
      try dsimp only [Option.map]
      split <;> simp

lemma hydrate_sections (secs : List Sec) (lh : String) :
    (hydrate secs lh).sections = (buildQuestionIndex secs).2 := by
  simp only [hydrate]
  cases hA : resolveQuestionId? (buildQuestionIndex secs).1 (extractHashId lh) with
  | some c =>
    try dsimp only [Option.map]
    split <;> simp
  | none =>
    try dsimp only [Option.map]
    cases hF : firstByOrder (buildQuestionIndex secs).1 with
    | none => simp
    | some e =>
      try dsimp only [Option.map]
      split <;> simp

lemma hydrate_sidebarIds (secs : List Sec) (lh : String) :
    (hydrate secs lh).sidebarIds = validItemIds (buildQuestionIndex secs).2 := by
  simp only [hydrate]
  cases hA : resolveQuestionId? (buildQuestionIndex secs).1 (extractHashId lh) with
  | some c =>
    try dsimp only [Option.map]
    split <;> simp
  | none =>
    try dsimp only [Option.map]
    cases hF : firstByOrder (buildQuestionIndex secs).1 with
    | none => simp
    | some e =>
      try dsimp only [Option.map]
      split <;> simp

lemma hydrate_accordionIds (secs : List Sec) (lh : String) :
    (hydrate secs lh).accordionIds =
      (validItemIds (buildQuestionIndex secs).2).filter
        (fun i => !(STATIC_ACCORDION_IDS.contains i)) := by
  simp only [hydrate]
  cases hA : resolveQuestionId? (buildQuestionIndex secs).1 (extractHashId lh) with
  | some c =>
    try dsimp only [Option.map]
    split <;> simp
  | none =>
    try dsimp only [Option.map]
    cases hF : firstByOrder (buildQuestionIndex secs).1 with
    | none => simp
    | some e =>
      try dsimp only [Option.map]
      split <;> simp

lemma hydrate_activeId (secs : List Sec) (lh : String) :
    (hydrate secs lh).activeId =
      (resolveQuestionId? (buildQuestionIndex secs).1 (extractHashId lh)).or
        ((firstByOrder (buildQuestionIndex secs).1).map (fun e => e.id)) := by
  simp only [hydrate]
  cases hA : resolveQuestionId? (buildQuestionIndex secs).1 (extractHashId lh) with
  | some c =>
    rw [option_some_or]
    try dsimp only [Option.map]
    split <;> simp
  | none =>
    rw [option_none_or]
    try dsimp only [Option.map]
    cases hF : firstByOrder (buildQuestionIndex secs).1 with
    | none => simp
    | some e =>
      try dsimp only [Option.map]
      split <;> simp

lemma hydrate_inv (secs : List Sec) (lh : String) : StateInv (hydrate secs lh) := by
  have hnodup : (validItemIds (buildQuestionIndex secs).2).Nodup := by
    rw [validItemIds_eq, ← buildQuestionIndex_fst_eq]
    exact build_nodup secs
  simp only [hydrate]
  cases hA : resolveQuestionId? (buildQuestionIndex secs).1 (extractHashId lh) with
  | some c =>
    try dsimp only [Option.map]
    split
    · refine ⟨?_, ?_, ?_⟩
      · simp only [sync_sidebarIds, usa_sidebarIds, rdq_sidebarIds]
        exact hnodup
      · simp only [sync_sidebarActive, usa_sidebarActive, rdq_sidebarIds, sync_sidebarIds]
        exact filter_length_le_one hnodup _ (pred_some_eq _)
      · refine sync_openPanels_le ?_ _
        simp only [usa_openPanels, rdq_openPanels]
        refine sync_openPanels_le ?_ _
        simp
    · refine ⟨?_, ?_, ?_⟩
      · simp only [sync_sidebarIds]
        exact hnodup
      · simp only [sync_sidebarActive]
        simp
      · refine sync_openPanels_le ?_ _
        simp
  | none =>
    try dsimp only [Option.map]
    cases hF : firstByOrder (buildQuestionIndex secs).1 with
    | none =>
      refine ⟨?_, ?_, ?_⟩
      · simp only [sync_sidebarIds]
        exact hnodup
      · simp only [sync_sidebarActive]
        simp
      · refine sync_openPanels_le ?_ _
        simp
    | some e =>
      try dsimp only [Option.map]
      split
      · refine ⟨?_, ?_, ?_⟩
        · simp only [sync_sidebarIds, usa_sidebarIds, rdq_sidebarIds]
          exact hnodup
        · simp only [sync_sidebarActive, usa_sidebarActive, rdq_sidebarIds, sync_sidebarIds]
          exact filter_length_le_one hnodup _ (pred_some_eq _)
        · refine sync_openPanels_le ?_ _
          simp only [usa_openPanels, rdq_openPanels]
          refine sync_openPanels_le ?_ _
          simp
      · refine ⟨?_, ?_, ?_⟩
        · simp only [sync_sidebarIds]
          exact hnodup
        · simp only [sync_sidebarActive]
          simp
        · refine sync_openPanels_le ?_ _
          simp

/-! ### Percent-encoding round trip -/

/-- The tokens a character contributes to its encoded form. -/
def tokenChar (c : Char) : List (Sum Nat Char) :=
  if isUnreserved c then [Sum.inr c] else (utf8Bytes c).map Sum.inl

lemma char_toNat_lt (c : Char) : c.toNat < 1114112 := by
  show c.val.toNat < 1114112
  have h := c.valid
  rcases h with h | h
  · omega
  · omega

lemma hexVal_hexDigit (n : Nat) (h : n < 16) : hexVal? (hexDigit n) = some n := by
  interval_cases n <;> decide

lemma tokenize_cons (c : Char) (rest : List Char) :
    tokenize (c :: rest) =
      (if c = Char.ofNat 37 then
        match rest with
        | h1 :: h2 :: rest2 =>
          match hexVal? h1, hexVal? h2 with
          | some a, some b => (tokenize rest2).map (fun ts => Sum.inl (16 * a + b) :: ts)
          | _, _ => none
        | _ => none
      else (tokenize rest).map (fun ts => Sum.inr c :: ts)) := by
  rw [tokenize.eq_def]

lemma tokenize_percentByte (b : Nat) (h : b < 256) (rest : List Char) :
    tokenize (percentByte b ++ rest) =
      (tokenize rest).map (fun ts => Sum.inl b :: ts) := by
  have h1 : b / 16 < 16 := by omega
  have h2 : b % 16 < 16 := by omega
  have hval : 16 * (b / 16) + b % 16 = b := by omega
  have hx : percentByte b ++ rest =
      Char.ofNat 37 :: hexDigit (b / 16) :: hexDigit (b % 16) :: rest := rfl
  rw [hx, tokenize_cons, if_pos rfl]
  dsimp only
  rw [hexVal_hexDigit _ h1, hexVal_hexDigit _ h2]
  dsimp only
  rw [hval]

lemma utf8Bytes_lt (c : Char) : ∀ b ∈ utf8Bytes c, b < 256 := by
  have hv := char_toNat_lt c
  intro b hb
  unfold utf8Bytes at hb
  split_ifs at hb with h1 h2 h3
  · simp only [List.mem_singleton] at hb
    omega
  · simp only [List.mem_cons, List.mem_singleton, List.not_mem_nil, or_false] at hb
    rcases hb with hb | hb <;> omega
  · simp only [List.mem_cons, List.mem_singleton, List.not_mem_nil, or_false] at hb
    rcases hb with hb | hb | hb <;> omega
  · simp only [List.mem_cons, List.mem_singleton, List.not_mem_nil, or_false] at hb
    rcases hb with hb | hb | hb | hb <;> omega

lemma tokenize_byteRun (bs : List Nat) (hb : ∀ b ∈ bs, b < 256) (rest : List Char) :
    tokenize (bs.flatMap percentByte ++ rest) =
      (tokenize rest).map (fun ts => bs.map Sum.inl ++ ts) := by
  induction bs with
  | nil => cases htk : tokenize rest <;> simp [htk]
  | cons b bs ih =>
    simp only [List.flatMap_cons, List.map_cons]
    rw [List.append_assoc, tokenize_percentByte b (hb b (List.mem_cons_self b bs))]
    rw [ih (fun x hx => hb x (List.mem_cons_of_mem _ hx))]
    cases htk : tokenize rest <;> simp [htk]

lemma tokenize_encodeChar (c : Char) (rest : List Char) :
    tokenize (encodeChar c ++ rest) =
      (tokenize rest).map (fun ts => tokenChar c ++ ts) := by
  by_cases hu : isUnreserved c
  · have hne : ¬(c = Char.ofNat 37) := by
      intro hc
      rw [hc] at hu
      exact absurd hu (by decide)
    have he : encodeChar c ++ rest = c :: rest := by simp [encodeChar, hu]
    have ht : tokenChar c = [Sum.inr c] := by simp [tokenChar, hu]
    rw [he, ht, tokenize_cons, if_neg hne]
    rfl
  · have he : encodeChar c = (utf8Bytes c).flatMap percentByte := by simp [encodeChar, hu]
    have ht : tokenChar c = (utf8Bytes c).map Sum.inl := by simp [tokenChar, hu]
    rw [he, ht]
    exact tokenize_byteRun _ (utf8Bytes_lt c) rest

lemma decodeTokens_nil : decodeTokens [] = some [] := by
  rw [decodeTokens]

lemma decodeTokens_inr (c : Char) (ts : List (Sum Nat Char)) :
    decodeTokens (Sum.inr c :: ts) = (decodeTokens ts).map (fun cs => c :: cs) := by
  rw [decodeTokens]

lemma decodeTokens_inl (b : Nat) (ts : List (Sum Nat Char)) :
    decodeTokens (Sum.inl b :: ts) =
      (if b < 128 then (decodeTokens ts).map (fun cs => Char.ofNat b :: cs)
       else if 192 ≤ b && b < 224 then
         match hr : readCont (b - 192) 1 ts with
         | some p => (decodeTokens p.2).map (fun cs => Char.ofNat p.1 :: cs)
         | none => none
       else if 224 ≤ b && b < 240 then
         match hr : readCont (b - 224) 2 ts with
         | some p => (decodeTokens p.2).map (fun cs => Char.ofNat p.1 :: cs)
         | none => none
       else if 240 ≤ b && b < 248 then
         match hr : readCont (b - 240) 3 ts with
         | some p => (decodeTokens p.2).map (fun cs => Char.ofNat p.1 :: cs)
         | none => none
       else none) := by
  rw [decodeTokens]

set_option maxRecDepth 4000 in
lemma decodeTokens_one (b : Nat) (hb : b < 128) (ts : List (Sum Nat Char)) :
    decodeTokens (Sum.inl b :: ts) =
      (decodeTokens ts).map (fun cs => Char.ofNat b :: cs) := by
  rw [decodeTokens_inl, if_pos hb]

set_option maxRecDepth 4000 in
lemma decodeTokens_two (v : Nat) (h1 : 128 ≤ v) (h2 : v < 2048) (ts : List (Sum Nat Char)) :
    decodeTokens (Sum.inl (192 + v / 64) :: Sum.inl (128 + v % 64) :: ts) =
      (decodeTokens ts).map (fun cs => Char.ofNat v :: cs) := by
  have hn1 : ¬(192 + v / 64 < 128) := by omega
  have hc2 : (192 ≤ 192 + v / 64 && 192 + v / 64 < 224) = true := by
    simp only [Bool.and_eq_true, decide_eq_true_eq]
    omega
  have hcont : isCont (128 + v % 64) = true := by
    simp only [isCont, Bool.and_eq_true, decide_eq_true_eq]
    omega
  have hcomp : readCont (192 + v / 64 - 192) 1 (Sum.inl (128 + v % 64) :: ts) =
      some ((192 + v / 64 - 192) * 64 + (128 + v % 64 - 128), ts) := by
    simp [readCont, hcont]
  have hval : (192 + v / 64 - 192) * 64 + (128 + v % 64 - 128) = v := by omega
  rw [decodeTokens_inl, if_neg hn1, if_pos hc2]
  split
  · rename_i p heq
    rw [hcomp] at heq
    cases heq
    dsimp only
    rw [hval]
  · rename_i heq
    rw [hcomp] at heq
    cases heq

set_option maxRecDepth 4000 in
lemma decodeTokens_three (v : Nat) (h1 : 2048 ≤ v) (h2 : v < 65536)
    (ts : List (Sum Nat Char)) :
    decodeTokens (Sum.inl (224 + v / 4096) :: Sum.inl (128 + v / 64 % 64) ::
        Sum.inl (128 + v % 64) :: ts) =
      (decodeTokens ts).map (fun cs => Char.ofNat v :: cs) := by
  have hn1 : ¬(224 + v / 4096 < 128) := by omega
  have hn2 : ¬((192 ≤ 224 + v / 4096 && 224 + v / 4096 < 224) = true) := by
    simp only [Bool.and_eq_true, decide_eq_true_eq]
    omega
  have hc3 : (224 ≤ 224 + v / 4096 && 224 + v / 4096 < 240) = true := by
    simp only [Bool.and_eq_true, decide_eq_true_eq]
    omega
  have hcont1 : isCont (128 + v / 64 % 64) = true := by
    simp only [isCont, Bool.and_eq_true, decide_eq_true_eq]
    omega
  have hcont2 : isCont (128 + v % 64) = true := by
    simp only [isCont, Bool.and_eq_true, decide_eq_true_eq]
    omega
  have hcomp : readCont (224 + v / 4096 - 224) 2
      (Sum.inl (128 + v / 64 % 64) :: Sum.inl (128 + v % 64) :: ts) =
      some (((224 + v / 4096 - 224) * 64 + (128 + v / 64 % 64 - 128)) * 64 +
        (128 + v % 64 - 128), ts) := by
    simp [readCont, hcont1, hcont2]
  have hval : ((224 + v / 4096 - 224) * 64 + (128 + v / 64 % 64 - 128)) * 64 +
      (128 + v % 64 - 128) = v := by omega
  rw [decodeTokens_inl, if_neg hn1, if_neg hn2, if_pos hc3]
  split
  · rename_i p heq
    rw [hcomp] at heq
    cases heq
    dsimp only
    rw [hval]
  · rename_i heq
    rw [hcomp] at heq
    cases heq

set_option maxRecDepth 4000 in
lemma decodeTokens_four (v : Nat) (h1 : 65536 ≤ v) (h2 : v < 1114112)
    (ts : List (Sum Nat Char)) :
    decodeTokens (Sum.inl (240 + v / 262144) :: Sum.inl (128 + v / 4096 % 64) ::
        Sum.inl (128 + v / 64 % 64) :: Sum.inl (128 + v % 64) :: ts) =
      (decodeTokens ts).map (fun cs => Char.ofNat v :: cs) := by
  have hn1 : ¬(240 + v / 262144 < 128) := by omega
  have hn2 : ¬((192 ≤ 240 + v / 262144 && 240 + v / 262144 < 224) = true) := by
    simp only [Bool.and_eq_true, decide_eq_true_eq]
    omega
  have hn3 : ¬((224 ≤ 240 + v / 262144 && 240 + v / 262144 < 240) = true) := by
    simp only [Bool.and_eq_true, decide_eq_true_eq]
    omega
  have hc4 : (240 ≤ 240 + v / 262144 && 240 + v / 262144 < 248) = true := by
    simp only [Bool.and_eq_true, decide_eq_true_eq]
    omega
  have hcont1 : isCont (128 + v / 4096 % 64) = true := by
    simp only [isCont, Bool.and_eq_true, decide_eq_true_eq]
    omega
  have hcont2 : isCont (128 + v / 64 % 64) = true := by
    simp only [isCont, Bool.and_eq_true, decide_eq_true_eq]
    omega
  have hcont3 : isCont (128 + v % 64) = true := by
    simp only [isCont, Bool.and_eq_true, decide_eq_true_eq]
    omega
  have hcomp : readCont (240 + v / 262144 - 240) 3
      (Sum.inl (128 + v / 4096 % 64) :: Sum.inl (128 + v / 64 % 64) ::
        Sum.inl (128 + v % 64) :: ts) =
      some ((((240 + v / 262144 - 240) * 64 + (128 + v / 4096 % 64 - 128)) * 64 +
        (128 + v / 64 % 64 - 128)) * 64 + (128 + v % 64 - 128), ts) := by
    simp [readCont, hcont1, hcont2, hcont3]
  have hval : (((240 + v / 262144 - 240) * 64 + (128 + v / 4096 % 64 - 128)) * 64 +
      (128 + v / 64 % 64 - 128)) * 64 + (128 + v % 64 - 128) = v := by omega
  rw [decodeTokens_inl, if_neg hn1, if_neg hn2, if_neg hn3, if_pos hc4]
  split
  · rename_i p heq
    rw [hcomp] at heq
    cases heq
    dsimp only
    rw [hval]
  · rename_i heq
    rw [hcomp] at heq
    cases heq

lemma decodeTokens_utf8 (c : Char) (ts : List (Sum Nat Char)) :
    decodeTokens ((utf8Bytes c).map Sum.inl ++ ts) =
      (decodeTokens ts).map (fun cs => c :: cs) := by
  have hv := char_toNat_lt c
  by_cases h1 : c.toNat < 128
  · have hb : utf8Bytes c = [c.toNat] := by simp [utf8Bytes, h1]
    rw [hb]
    simp only [List.map_cons, List.map_nil, List.cons_append, List.nil_append]
    rw [decodeTokens_one _ h1, Char.ofNat_toNat]
  · by_cases h2 : c.toNat < 2048
    · have hb : utf8Bytes c = [192 + c.toNat / 64, 128 + c.toNat % 64] := by
        simp [utf8Bytes, h1, h2]
      rw [hb]
      simp only [List.map_cons, List.map_nil, List.cons_append, List.nil_append]
      rw [decodeTokens_two c.toNat (by omega) h2, Char.ofNat_toNat]
    · by_cases h3 : c.toNat < 65536
      · have hb : utf8Bytes c =
            [224 + c.toNat / 4096, 128 + c.toNat / 64 % 64, 128 + c.toNat % 64] := by
          simp [utf8Bytes, h1, h2, h3]
        rw [hb]
        simp only [List.map_cons, List.map_nil, List.cons_append, List.nil_append]
        rw [decodeTokens_three c.toNat (by omega) h3, Char.ofNat_toNat]
      · have hb : utf8Bytes c =
            [240 + c.toNat / 262144, 128 + c.toNat / 4096 % 64, 128 + c.toNat / 64 % 64,
              128 + c.toNat % 64] := by
          simp [utf8Bytes, h1, h2, h3]
        rw [hb]
        simp only [List.map_cons, List.map_nil, List.cons_append, List.nil_append]
        rw [decodeTokens_four c.toNat (by omega) (by omega), Char.ofNat_toNat]

lemma decodeTokens_tokenChar (c : Char) (ts : List (Sum Nat Char)) :
    decodeTokens (tokenChar c ++ ts) = (decodeTokens ts).map (fun cs => c :: cs) := by
  by_cases hu : isUnreserved c
  · have ht : tokenChar c = [Sum.inr c] := by simp [tokenChar, hu]
    rw [ht]
    exact decodeTokens_inr c ts
  · have ht : tokenChar c = (utf8Bytes c).map Sum.inl := by simp [tokenChar, hu]
    rw [ht]
    exact decodeTokens_utf8 c ts

lemma tokenize_encodeList (cs : List Char) :
    tokenize (cs.flatMap encodeChar) = some (cs.flatMap tokenChar) := by
  induction cs with
  | nil => rfl
  | cons c cs ih =>
    simp only [List.flatMap_cons]
    rw [tokenize_encodeChar, ih]
    rfl

lemma decodeTokens_tokenList (cs : List Char) :
    decodeTokens (cs.flatMap tokenChar) = some cs := by
  induction cs with
  | nil => exact decodeTokens_nil
  | cons c cs ih =>
    simp only [List.flatMap_cons]
    rw [decodeTokens_tokenChar, ih]
    rfl

lemma decode_encode (s : String) :
    decodeURIComponent (encodeURIComponent s) = some s := by
  unfold decodeURIComponent encodeURIComponent
  have hd : (String.mk (s.data.flatMap encodeChar)).data = s.data.flatMap encodeChar := rfl
  rw [hd, tokenize_encodeList]
  dsimp only
  rw [decodeTokens_tokenList]

/-! ### Hash write-path lemmas -/

lemma stripHashMark_hash (s : String) : stripHashMark ("#" ++ s) = s := by
  have hdata : ("#" ++ s).data = Char.ofNat 35 :: s.data := rfl
  have hpre : strStartsWith ("#" ++ s) "#" = true := by
    simp [strStartsWith, hdata, List.isPrefixOf]
  simp only [stripHashMark]
  rw [if_pos hpre]
  simp only [strDrop, hdata, List.drop_succ_cons, List.drop_zero]

lemma setHash_strip (h id : String) (hne : ¬id = "") :
    stripHashMark (setHashQuestionId h id) = encodeURIComponent id := by
  simp only [setHashQuestionId]
  rw [if_neg hne]
  by_cases hc : stripHashMark h = encodeURIComponent id
  · rw [if_pos hc]
    exact hc
  · rw [if_neg hc]
    exact stripHashMark_hash _

lemma apply_locationHash (st : AppState) (id : String) (sm : Bool)
    (hid : hasId st.questions id = true) (hne : ¬id = "") :
    (applyActiveQuestion st id true sm).locationHash =
      setHashQuestionId st.locationHash id := by
  have hguard : ¬((decide (id = "") || !hasId st.questions id) = true) := by
    simp [hne, hid]
  simp only [applyActiveQuestion]
  rw [if_neg hguard]
  simp only [sync_locationHash, usa_locationHash, rdq_locationHash]
  rw [if_pos trivial]

/-! ### Resolution and index side conditions -/

lemma resolve_hasId {qs : List Entry} {c r : String}
    (h : resolveQuestionId qs c = some r) : hasId qs r = true := by
  simp only [resolveQuestionId] at h
  split_ifs at h with h1 h2 h3 h4 h5
  all_goals (cases h; assumption)

lemma processItems_ids_ne (sec : String) (qs : List Entry) (its : List Item)
    (h : ∀ e ∈ qs, ¬e.id = "") :
    ∀ e ∈ (processItems sec qs its).1, ¬e.id = "" := by
  induction its generalizing qs with
  | nil =>
    intro e he
    simp only [processItems] at he
    exact h e he
  | cons it rest ih =>
    by_cases h1 : it.id = ""
    · simp only [processItems, insertItem_skip_empty h1]
      exact ih qs h
    · by_cases h2 : hasId qs it.id
      · simp only [processItems, insertItem_skip_dup h1 h2]
        exact ih qs h
      · simp only [processItems, insertItem_accept h1 h2]
        refine ih (qs ++ [_]) ?_
        intro e he
        rcases List.mem_append.mp he with he | he
        · exact h e he
        · simp only [List.mem_singleton] at he
          subst he
          exact h1

lemma build_ids_ne (secs : List Sec) :
    ∀ e ∈ (buildQuestionIndex secs).1, ¬e.id = "" := by
  suffices hs : ∀ (qs : List Entry) (ss : List Sec), (∀ e ∈ qs, ¬e.id = "") →
      ∀ e ∈ (processSections qs ss).1, ¬e.id = "" by
    exact hs [] secs (by simp)
  intro qs ss
  induction ss generalizing qs with
  | nil =>
    intro h e he
    simp only [processSections] at he
    exact h e he
  | cons s rest ih =>
    intro h
    simp only [processSections]
    exact ih _ (processItems_ids_ne s.sectionName qs s.items h)

lemma hasId_ne_empty {secs : List Sec} {c : String}
    (h : hasId (buildQuestionIndex secs).1 c = true) : ¬c = "" := by
  simp only [hasId, List.any_eq_true, beq_iff_eq] at h
  obtain ⟨e, he, hec⟩ := h
  intro hc
  exact build_ids_ne secs e he (hec.trans hc)

lemma hasId_nonempty {qs : List Entry} {c : String} (h : hasId qs c = true) :
    ¬qs.length = 0 := by
  cases qs with
  | nil => simp [hasId] at h
  | cons e qs => simp

lemma hydrate_empty (lh : String) :
    (hydrate [] lh).activeId = none ∧
    (hydrate [] lh).viewer = ViewerContent.emptyMsg ∧
    (hydrate [] lh).sections = [] := by
  have hres : resolveQuestionId? (buildQuestionIndex []).1 (extractHashId lh) = none := by
    cases hE : extractHashId lh with
    | none => rfl
    | some c => simp [resolveQuestionId?, resolveQuestionId, buildQuestionIndex, processSections]
  simp only [hydrate, hres]
  try dsimp only
  simp [firstByOrder, buildQuestionIndex, processSections, syncMobileAccordion]

/-! ### Concrete scenario documents and states -/

/-- The spec's duplicate-id scenario document
`[{section:"A", items:[{id:"x1",q:"Q1",a:"A1"},{id:"x1",q:"Q1b",a:"A1b"}]}]`. -/
def demoDoc : List Sec :=
  [{ sectionName := "A", hideHeading := false,
     items := [{ id := "x1", q := "Q1", a := "A1" },
               { id := "x1", q := "Q1b", a := "A1b" }] }]

/-- A two-question document with ids `x1` and `x2`. -/
def demoTwoDoc : List Sec :=
  [{ sectionName := "A", hideHeading := false,
     items := [{ id := "x1", q := "Q1", a := "A1" },
               { id := "x2", q := "Q2", a := "A2" }] }]

/-- The page state after hydrating the two-question document with an empty
location hash. -/
def demoState : AppState := hydrate demoTwoDoc ""

/-- A document whose single item id is the literal string `q-`. -/
def c9Doc : List Sec :=
  [{ sectionName := "A", hideHeading := false,
     items := [{ id := "q-", q := "Q", a := "A" }] }]

/-- A document whose single item id is `q-z`. -/
def c9bDoc : List Sec :=
  [{ sectionName := "A", hideHeading := false,
     items := [{ id := "q-z", q := "Q", a := "A" }] }]

/-- A main.js page state with no rendered questions. -/
def mainEmptyState : MainJs.St :=
  { flatQuestions := [], activeDesktopId := none, sidebarActive := [],
    openPanels := [], locationHash := "", viewerQuestion := none }

/-! ### The claims -/

/-- C1 counterexample: in the older variant `main.js` (`applyActiveQuestion`,
lines 279-286) the guard checks only that the id is truthy, so activating an
id that keys no rendered question overwrites `activeDesktopId` with the
unknown id instead of being a no-op. -/
theorem C1_counterexample :
    (mainEmptyState.flatQuestions.map (fun e => e.id)).contains "ghost" = false ∧
    mainEmptyState.activeDesktopId = none ∧
    (MainJs.applyActiveQuestion mainEmptyState "ghost" false false).activeDesktopId =
      some "ghost" := by
  decide

/-- C1 (amended to the primary variant, part_000:533-546): activating an id
absent from the question index leaves the entire coordinator state — active
id, viewer, sidebar marks, open panels and location hash — unchanged, and no
error is raised. -/
theorem C1_theorem (st : AppState) (id : String) (syncHash scrollMobile : Bool)
    (h : hasId st.questions id = false) :
    applyActiveQuestion st id syncHash scrollMobile = st := by
  simp [applyActiveQuestion, h]

/-- The guard of C1_theorem holds at a concrete unknown id on a hydrated
state. -/
theorem C1_witness :
    hasId demoState.questions "ghost" = false ∧
    applyActiveQuestion demoState "ghost" true false = demoState :=
  ⟨by decide, C1_theorem demoState "ghost" true false (by decide)⟩

/-- C2: from hydration, any sequence of coordinator operations keeps at most
one sidebar control active and at most one accordion panel open; and the
accordion synchronisation step leaves only the target panel open (collapsing
every other panel first) whenever the target id keys a rendered panel. -/
theorem C2_theorem (secs : List Sec) (lh : String) (ops : List Op)
    (st : AppState) (id : String) :
    (runOps (hydrate secs lh) ops).sidebarActive.length ≤ 1 ∧
    (runOps (hydrate secs lh) ops).openPanels.length ≤ 1 ∧
    (¬id = "" → st.accordionIds.contains id = true →
      ∀ x ∈ (syncMobileAccordion st (some id)).openPanels, x = id) := by
  refine ⟨(runOps_inv (hydrate_inv secs lh) ops).2.1,
    (runOps_inv (hydrate_inv secs lh) ops).2.2, ?_⟩
  intro hne hc x hx
  have hmem : id ∈ st.accordionIds := string_contains_iff.mp hc
  have hlen : ¬st.accordionIds.length = 0 := by
    cases h : st.accordionIds with
    | nil =>
      rw [h] at hmem
      simp at hmem
    | cons a l => simp [h]
  simp only [syncMobileAccordion] at hx
  rw [if_neg (by simp [hne, hlen])] at hx
  rw [if_neg (by simp [hmem])] at hx
  by_cases hcc : (st.openPanels.filter (fun q => q == id)).contains id = true
  · rw [if_pos hcc] at hx
    have hx2 : x ∈ st.openPanels.filter (fun q => q == id) := hx
    have hb := List.of_mem_filter hx2
    exact eq_of_beq hb
  · rw [if_neg hcc] at hx
    have hx2 : x ∈ st.openPanels.filter (fun q => q == id) ++ [id] := hx
    rcases List.mem_append.mp hx2 with h1 | h1
    · have hb := List.of_mem_filter h1
      exact eq_of_beq hb
    · simpa using h1

/-- C3: the question index is duplicate-free in its ids; the record an id
maps to carries the question, answer and section text of the first raw item
with that (truthy) id, later duplicates being dropped; and on the spec's
duplicate document the index holds exactly one entry for `x1`, with question
text `Q1`. -/
theorem C3_theorem (secs : List Sec) (id : String) :
    ((buildQuestionIndex secs).1.map (fun e => e.id)).Nodup ∧
    ((buildQuestionIndex secs).1.find? (fun e => e.id == id)).map projQA =
      ((rawRecords secs).find? (fun p => !(p.2.id == "") && p.2.id == id)).map
        (fun p => (p.2.q, p.2.a, p.1)) ∧
    (buildQuestionIndex demoDoc).1.map (fun e => (e.id, e.question)) =
      [("x1", "Q1")] :=
  ⟨build_nodup secs, build_find secs id, by decide⟩

/-- C4: the hydrated active id is the resolved hash candidate when there is
one and otherwise the id of the head of the index — the record of smallest
order, since the orders increase in insertion order; every resolved candidate
is a key of the index; and hydrating the empty document renders no sidebar
links and no accordion entries, shows the empty-state viewer message, and
leaves the active id null. -/
theorem C4_theorem (secs : List Sec) (lh : String) :
    (hydrate secs lh).activeId =
      (resolveQuestionId? (buildQuestionIndex secs).1 (extractHashId lh)).or
        ((firstByOrder (buildQuestionIndex secs).1).map (fun e => e.id)) ∧
    firstByOrder (buildQuestionIndex secs).1 = (buildQuestionIndex secs).1.head? ∧
    (∀ c r, resolveQuestionId (buildQuestionIndex secs).1 c = some r →
      hasId (buildQuestionIndex secs).1 r = true) ∧
    (hydrate [] lh).activeId = none ∧
    (hydrate [] lh).viewer = ViewerContent.emptyMsg ∧
    sidebarLinkCount (hydrate [] lh).sections = 0 ∧
    accordionEntryCount (hydrate [] lh).sections = 0 := by
  have he := hydrate_empty lh
  refine ⟨hydrate_activeId secs lh, firstByOrder_build secs,
    fun c r h => resolve_hasId h, he.1, he.2.1, ?_, ?_⟩
  · rw [he.2.2]
    rfl
  · rw [he.2.2]
    rfl

/-- C5: activating an id of the index with hash syncing enabled leaves the
location hash carrying exactly the percent-encoded literal unprefixed id
after the hash mark, and stripping the mark and percent-decoding recovers the
id. -/
theorem C5_theorem (st : AppState) (id : String) (scrollMobile : Bool)
    (hid : hasId st.questions id = true) (hne : ¬id = "") :
    stripHashMark ((applyActiveQuestion st id true scrollMobile).locationHash) =
      encodeURIComponent id ∧
    decodeURIComponent
      (stripHashMark ((applyActiveQuestion st id true scrollMobile).locationHash)) =
      some id := by
  have h1 : (applyActiveQuestion st id true scrollMobile).locationHash =
      setHashQuestionId st.locationHash id :=
    apply_locationHash st id scrollMobile hid hne
  rw [h1, setHash_strip st.locationHash id hne]
  exact ⟨rfl, decode_encode id⟩

/-- The hash round trip of C5_theorem at the concrete id `x1` on a hydrated
state. -/
theorem C5_witness :
    stripHashMark ((applyActiveQuestion demoState "x1" true false).locationHash) =
      encodeURIComponent "x1" ∧
    decodeURIComponent
      (stripHashMark ((applyActiveQuestion demoState "x1" true false).locationHash)) =
      some "x1" :=
  C5_theorem demoState "x1" false (by decide) (by decide)

/-- C6 counterexample: `main.js` (`renderDesktop`/`renderMobile`) does not
collapse duplicate ids — on the spec's duplicate document it renders two
sidebar links and two accordion items against a single unique id. -/
theorem C6_counterexample :
    MainJs.mainSidebarLinkCount demoDoc = 2 ∧
    MainJs.mainAccordionItemCount demoDoc = 2 ∧
    (uniqueIds demoDoc).length = 1 := by
  decide

/-- C6 (amended to the primary variant): for every document, the rendered
sidebar link count and the rendered accordion entry count both equal the
number of unique truthy ids of the document; in `main.js` only the weaker
equality of its two rendered counts with each other holds. -/
theorem C6_theorem (secs : List Sec) (lh : String) :
    sidebarLinkCount (hydrate secs lh).sections = (uniqueIds secs).length ∧
    accordionEntryCount (hydrate secs lh).sections = (uniqueIds secs).length ∧
    MainJs.mainSidebarLinkCount secs = MainJs.mainAccordionItemCount secs := by
  have hu : (validEntries (buildQuestionIndex secs).2).length =
      (uniqueIds secs).length := by
    rw [← buildQuestionIndex_fst_eq, ← build_map_id]
    exact (List.length_map _ _).symm
  refine ⟨?_, ?_, mainjs_counts_eq secs⟩
  · rw [hydrate_sections, sidebarLinkCount_eq, hu]
  · rw [hydrate_sections, accordionEntryCount_eq, hu]

/-- C7: every keydown that passes the focus/modifier guard throws
`ReferenceError` — part_000:913 reads the undeclared identifier
`questionIndex` — so the arrow/Home/End dispatch is unreachable; keydowns
from text inputs are ignored as specified; and the wrap-around arithmetic of
`navigateToQuestion`, which the handler was meant to drive, does wrap past
either end of a two-question id list. -/
theorem C7_theorem :
    handleKeyboardNavigation demoState "ArrowDown" "BUTTON" false false =
      Except.error (JsError.referenceError "questionIndex") ∧
    handleKeyboardNavigation demoState "Home" "BODY" false false =
      Except.error (JsError.referenceError "questionIndex") ∧
    handleKeyboardNavigation demoState "ArrowDown" "INPUT" false false =
      Except.ok demoState ∧
    (navigateToQuestion demoState 2 ["x1", "x2"] false).activeId = some "x1" ∧
    (navigateToQuestion demoState (-1) ["x1", "x2"] false).activeId = some "x2" := by
  exact ⟨rfl, rfl, rfl, by decide, by decide⟩

/-- C8: initialisation issues exactly the one `no-store` fetch of
`assets/faq-data.json`; a non-ok response, unparseable JSON, or a non-array
top-level value each abort hydration with the single static no-data message
and zero rendered entries, with no retry; and an ok array payload hydrates
from the parsed sections. -/
theorem C8_theorem (resp : FetchResponse) (lh : String) :
    (initApp resp lh).1 = [faqRequest] ∧
    faqRequest.cache = "no-store" ∧
    ((resp.ok = false ∨ resp.body = FetchBody.malformed ∨
        resp.body = FetchBody.jsonNonArray) →
      (initApp resp lh).2 = InitResult.failed
        { viewerHtml := noDataHtml, sidebarEntryCount := 0,
          accordionEntryCount := 0 }) ∧
    (∀ sections, resp.ok = true → resp.body = FetchBody.jsonArray sections →
      (initApp resp lh).2 = InitResult.hydrated (hydrate sections lh)) := by
  refine ⟨rfl, rfl, ?_, ?_⟩
  · intro h
    cases hok : resp.ok with
    | false =>
      simp [initApp, loadFaqData, hok, handleDataLoadError, showErrorState]
    | true =>
      rcases h with h | h | h
      · rw [hok] at h
        exact Bool.noConfusion h
      · simp [initApp, loadFaqData, hok, h, handleDataLoadError, showErrorState]
      · simp [initApp, loadFaqData, hok, h, handleDataLoadError, showErrorState]
  · intro sections hok hbody
    simp [initApp, loadFaqData, hok, hbody]

/-- C9 counterexample: the reverse-prefixing direction fails at the empty
candidate: on a document whose only id is the literal `q-`, the empty string
is no key, does not start with `q-`, and `q-` ++ the empty string is a key,
yet resolution returns nothing because the empty-candidate guard fires
first. -/
theorem C9_counterexample :
    hasId (buildQuestionIndex c9Doc).1 "" = false ∧
    strStartsWith "" "q-" = false ∧
    hasId (buildQuestionIndex c9Doc).1 ("q-" ++ "") = true ∧
    resolveQuestionId (buildQuestionIndex c9Doc).1 "" = none := by
  decide

/-- C9 (amended to nonempty candidates): resolution returns a candidate that
is an index key unchanged, and otherwise returns the `q-` prefixed form
exactly when the candidate does not itself start with `q-` and the prefixed
form is a key. -/
theorem C9_theorem (qs : List Entry) (c : String) (hne : ¬c = "") :
    (hasId qs c = true → resolveQuestionId qs c = some c) ∧
    (hasId qs c = false → strStartsWith c "q-" = false →
      hasId qs ("q-" ++ c) = true →
      resolveQuestionId qs c = some ("q-" ++ c)) := by
  constructor
  · intro h
    have hlen : ¬qs.length = 0 := hasId_nonempty h
    simp [resolveQuestionId, hne, hlen, h]
  · intro h hpre hq
    have hlen : ¬qs.length = 0 := hasId_nonempty hq
    simp [resolveQuestionId, hne, hlen, h, hpre, hq]

/-- Both branches of C9_theorem at the concrete candidate `z` on the
document whose only id is `q-z`. -/
theorem C9_witness :
    (hasId (buildQuestionIndex c9bDoc).1 "z" = true →
      resolveQuestionId (buildQuestionIndex c9bDoc).1 "z" = some "z") ∧
    (hasId (buildQuestionIndex c9bDoc).1 "z" = false →
      strStartsWith "z" "q-" = false →
      hasId (buildQuestionIndex c9bDoc).1 ("q-" ++ "z") = true →
      resolveQuestionId (buildQuestionIndex c9bDoc).1 "z" = some ("q-" ++ "z")) :=
  C9_theorem (buildQuestionIndex c9bDoc).1 "z" (by decide)

/-- C10: `formatBulletPoints` equals the spec's grouping transformation —
each maximal run of consecutive bullet lines becomes one `ul` of the trimmed
after-marker texts, other non-empty lines are kept in order, empty non-bullet
lines are dropped and a trailing run is closed; the empty string and
non-string values pass through unchanged; the accordion body of every entry
is `formatBulletPoints` of its answer; and a concrete mixed input evaluates
accordingly. -/
theorem C10_theorem (s : String) (tag : String) (e : Entry) :
    formatBulletPoints s = formatBulletPointsSpec s ∧
    formatBulletPoints "" = "" ∧
    formatBulletPointsVal (JsVal.str s) = JsVal.str (formatBulletPoints s) ∧
    formatBulletPointsVal (JsVal.nonString tag) = JsVal.nonString tag ∧
    createAccordionItem e =
      AccNode.accItem e.id e.question (formatBulletPoints e.answer) ∧
    formatBulletPoints "intro\n* a \n* b\n\nend" =
      "intro\n<ul><li>a</li><li>b</li></ul>\nend" :=
  ⟨formatBulletPoints_eq_spec s, rfl, rfl, rfl, rfl, by decide⟩

end Intersophia
